import Mathlib

/-!
Verification of the Setun balanced-ternary emulator core.

The definitions below are a shallow embedding of the JavaScript class
`SetunEmulator`: machine state becomes an explicit record, each mutating
method becomes a function from machine to machine (paired with its return
value or raised signal), and a thrown exception becomes an explicit
`thrown` outcome carrying the message.  JavaScript numbers are modelled as
`Int` (all arithmetic in the emulator stays integral), arrays as lists,
and the breakpoint / protected-memory sets as duplicate-free lists queried
by membership.
-/

namespace Setun

/-- Decidable equality for `Except`, used to evaluate the codec on
concrete inputs. -/
instance {ε α : Type} [DecidableEq ε] [DecidableEq α] : DecidableEq (Except ε α) := by
  intro x y
  cases x <;> cases y
  case error.error a b =>
    exact if h : a = b then .isTrue (by rw [h]) else .isFalse (by simp [h])
  case ok.ok a b =>
    exact if h : a = b then .isTrue (by rw [h]) else .isFalse (by simp [h])
  case error.ok a b => exact .isFalse (by simp)
  case ok.error a b => exact .isFalse (by simp)

/-- Target of a conditional breakpoint or watch: the accumulator or a
memory cell. -/
inductive StateTarget where
  | accumulator
  | memory
deriving DecidableEq

/-- The six comparison operators a conditional breakpoint may carry. -/
inductive CmpOp where
  | eq | ne | gt | lt | ge | le
deriving DecidableEq

/-- A conditional breakpoint: target, optional memory address, operator,
comparison value. -/
structure CondBp where
  target : StateTarget
  address : Option Int
  operator : CmpOp
  value : Int
deriving DecidableEq

/-- A watch expression: target, optional memory address, optional label. -/
structure Watch where
  target : StateTarget
  address : Option Int
  label : Option String
deriving DecidableEq

/-- One execution-history entry: the fields captured by
`saveStateToHistory`. -/
structure Snapshot where
  accumulator : Int
  programCounter : Int
  instructionRegister : Int
  memory : List Int
  callStack : List Int
  instructionCount : Nat
deriving DecidableEq

/-- The whole mutable state of a `SetunEmulator` instance, one field per
field of the JavaScript constructor. -/
structure Machine where
  accumulator : Int
  programCounter : Int
  instructionRegister : Int
  memorySize : Nat
  memory : List Int
  callStack : List Int
  maxCallDepth : Nat
  breakpoints : List Int
  conditionalBreakpoints : List CondBp
  executionHistory : List Snapshot
  maxHistorySize : Nat
  historyEnabled : Bool
  watches : List Watch
  protectedMemory : List Int
  memoryAccessCounts : List Nat
  heatmapEnabled : Bool
  running : Bool
  instructionCount : Nat
  maxInstructions : Nat
  hitBreakpoint : Bool
deriving DecidableEq

/-- The constructor `new SetunEmulator(memorySize)`. -/
def mkMachine (memorySize : Nat) : Machine where
  accumulator := 0
  programCounter := 0
  instructionRegister := 0
  memorySize := memorySize
  memory := List.replicate memorySize 0
  callStack := []
  maxCallDepth := 10
  breakpoints := []
  conditionalBreakpoints := []
  executionHistory := []
  maxHistorySize := 1000
  historyEnabled := true
  watches := []
  protectedMemory := []
  memoryAccessCounts := List.replicate memorySize 0
  heatmapEnabled := false
  running := false
  instructionCount := 0
  maxInstructions := 10000
  hitBreakpoint := false

/-! ## Numeral codec -/

/-- Digit classification of `fromBalancedTernary`: '-', the Unicode minus
sign, and '_' denote -1; '0' denotes 0; '+' and '1' denote +1; anything
else is invalid. -/
def digitOfChar (c : Char) : Option Int :=
  if c = '-' ∨ c = '−' ∨ c = '_' then some (-1)
  else if c = '0' then some 0
  else if c = '+' ∨ c = '1' then some 1
  else none

/-- The digit list (most-significant first) produced by the conversion
loop of `toBalancedTernary` on a nonnegative input: repeated division by
3, a remainder of 2 rewritten as digit -1 with carry into the quotient.
Digits are prepended (`unshift`), so the recursion appends on the right. -/
def toBTDigits (n : Nat) : List Int :=
  if _h : n = 0 then []
  else if _h2 : n % 3 = 2 then toBTDigits (n / 3 + 1) ++ [-1]
  else toBTDigits (n / 3) ++ [((n % 3 : Nat) : Int)]
termination_by n
decreasing_by
  · omega
  · omega

/-- Digit-to-symbol map of `toBalancedTernary` (only ever applied to
digits -1, 0, 1). -/
def digitChar (d : Int) : Char :=
  if d = -1 then '-' else if d = 0 then '0' else '+'

/-- Mirror of `SetunEmulator.toBalancedTernary`: 0 maps to "0"; otherwise convert
the absolute value and negate every digit for a negative input. -/
def toBalancedTernary (decimal : Int) : String :=
  if decimal = 0 then "0"
  else
    let digits := toBTDigits decimal.natAbs
    let digits := if decimal < 0 then digits.map (fun d => -d) else digits
    String.mk (digits.map digitChar)

/-- The right-to-left loop of `fromBalancedTernary`: the list is the
string's characters reversed (least-significant first), `p` the current
power.  The first invalid character encountered (i.e. the rightmost one
in the original string) raises the parse error. -/
def fromBTAux : List Char → Nat → Except String Int
  | [], _ => .ok 0
  | c :: rest, p =>
    match digitOfChar c with
    | none => .error ("Invalid ternary digit: " ++ String.singleton c)
    | some d =>
      match fromBTAux rest (p + 1) with
      | .error e => .error e
      | .ok r => .ok (r + d * (3 : Int) ^ p)

/-- Mirror of `SetunEmulator.fromBalancedTernary`: empty input yields 0, otherwise
the digits are processed least-significant first accumulating
`digit * 3 ^ power`; an invalid character raises a parse error naming it. -/
def fromBalancedTernary (ternary : String) : Except String Int :=
  if ternary.data.isEmpty then .ok 0
  else fromBTAux ternary.data.reverse 0

/-- Character class of the `validateTernary` regular expression:
the three digit symbol classes plus whitespace. -/
def validTernaryChar (c : Char) : Bool :=
  c = '-' || c = '−' || c = '_' || c = '0' || c = '+' || c = '1' || c.isWhitespace

/-- Mirror of `SetunEmulator.validateTernary`. -/
def validateTernary (s : String) : Bool :=
  s.data.all validTernaryChar

/-- Specification-side value of a digit string, written as the spec says:
each digit contributes `digit * 3 ^ power`, the least-significant digit
(power 0) last. -/
def specValue : List Char → Int
  | [] => 0
  | c :: rest => (digitOfChar c).getD 0 * (3 : Int) ^ rest.length + specValue rest

/-- The invalid character that `fromBalancedTernary` reports, if any: the
last invalid character of the string (the first one met scanning from the
right). -/
def lastInvalid? (l : List Char) : Option Char :=
  (l.filter (fun c => (digitOfChar c).isNone)).getLast?

/-- Specification-side description of `fromBalancedTernary`: error on the
reported invalid character if one exists, else the `digit * 3 ^ power`
sum. -/
def fromBTSpec (s : String) : Except String Int :=
  match lastInvalid? s.data with
  | some c => .error ("Invalid ternary digit: " ++ String.singleton c)
  | none => .ok (specValue s.data)

/-! ## Machine operations -/

/-- Read `memory[i]`; every read in the emulator is guarded so the 0
default for an out-of-range index is never observable. -/
def memGet (l : List Int) (i : Int) : Int :=
  if 0 ≤ i ∧ i < (l.length : Int) then l.getD i.toNat 0 else 0

/-- Mirror of `SetunEmulator.canWriteToMemory`: in range and not protected. -/
def canWriteToMemory (m : Machine) (addr : Int) : Bool :=
  if addr < 0 ∨ (m.memory.length : Int) ≤ addr then false
  else !(m.protectedMemory.contains addr)

/-- The heatmap bookkeeping `this.memoryAccessCounts[addr]++`, performed
only when the heatmap is enabled. -/
def bumpAccess (m : Machine) (addr : Int) : Machine :=
  if m.heatmapEnabled then
    { m with memoryAccessCounts :=
        m.memoryAccessCounts.set addr.toNat ((m.memoryAccessCounts.getD addr.toNat 0) + 1) }
  else m

/-- The snapshot object built by `saveStateToHistory`. -/
def mkSnapshot (m : Machine) : Snapshot where
  accumulator := m.accumulator
  programCounter := m.programCounter
  instructionRegister := m.instructionRegister
  memory := m.memory
  callStack := m.callStack
  instructionCount := m.instructionCount

/-- Push a snapshot at the end of the history; if the bound is exceeded
the oldest entry (the head) is evicted. -/
def pushHist (h : List Snapshot) (s : Snapshot) (maxH : Nat) : List Snapshot :=
  let l := h ++ [s]
  if maxH < l.length then l.tail else l

/-- Mirror of `SetunEmulator.saveStateToHistory`. -/
def saveStateToHistory (m : Machine) : Machine :=
  { m with executionHistory := pushHist m.executionHistory (mkSnapshot m) m.maxHistorySize }

/-- Evaluate one comparison operator. -/
def cmpEval (op : CmpOp) (current value : Int) : Bool :=
  match op with
  | .eq => current = value
  | .ne => current ≠ value
  | .gt => value < current
  | .lt => current < value
  | .ge => value ≤ current
  | .le => current ≤ value

/-- Whether one conditional breakpoint triggers on the current state;
a memory condition with no or an out-of-range address is skipped. -/
def condTriggered (m : Machine) (c : CondBp) : Bool :=
  match c.target, c.address with
  | .accumulator, _ => cmpEval c.operator m.accumulator c.value
  | .memory, some a =>
    if 0 ≤ a ∧ a < (m.memory.length : Int) then
      cmpEval c.operator (memGet m.memory a) c.value
    else false
  | .memory, none => false

/-- Mirror of `SetunEmulator.checkConditionalBreakpoints`: first triggered condition
in list order. -/
def checkConditionalBreakpoints (m : Machine) : Option CondBp :=
  m.conditionalBreakpoints.find? (condTriggered m)

/-- Display form of a comparison operator. -/
def cmpStr : CmpOp → String
  | .eq => "=="
  | .ne => "!="
  | .gt => ">"
  | .lt => "<"
  | .ge => ">="
  | .le => "<="

/-- The message reported when a conditional breakpoint halts the run. -/
def condDescription (c : CondBp) : String :=
  match c.target with
  | .accumulator =>
    "Conditional breakpoint: Accumulator " ++ cmpStr c.operator ++ " " ++ toString c.value
  | .memory =>
    "Conditional breakpoint: Memory[" ++ toString (c.address.getD 0) ++ "] "
      ++ cmpStr c.operator ++ " " ++ toString c.value

/-- Result of `executeInstruction`: continue the cycle, return false after
an `onHalt` or `onError` callback, or propagate a thrown exception. -/
inductive ExecResult where
  | cont
  | stopHalt (msg : String)
  | stopError (msg : String)
  | thrown (msg : String)
deriving DecidableEq

/-- The HALT case of the opcode switch. -/
def execHALT (m : Machine) : Machine × ExecResult :=
  ({ m with running := false }, .stopHalt "Halt instruction (0) encountered")

/-- The ADD case: the next memory cell is the operand. -/
def execADD (m : Machine) : Machine × ExecResult :=
  let pc1 := m.programCounter + 1
  if pc1 < (m.memory.length : Int) then
    ({ m with programCounter := pc1,
              accumulator := m.accumulator + memGet m.memory pc1 }, .cont)
  else ({ m with programCounter := pc1 }, .cont)

/-- The SUB case. -/
def execSUB (m : Machine) : Machine × ExecResult :=
  let pc1 := m.programCounter + 1
  if pc1 < (m.memory.length : Int) then
    ({ m with programCounter := pc1,
              accumulator := m.accumulator - memGet m.memory pc1 }, .cont)
  else ({ m with programCounter := pc1 }, .cont)

/-- The LOAD case: load from the address in the next cell, in range only. -/
def execLOAD (m : Machine) : Machine × ExecResult :=
  let pc1 := m.programCounter + 1
  if pc1 < (m.memory.length : Int) then
    let addr := memGet m.memory pc1
    if 0 ≤ addr ∧ addr < (m.memory.length : Int) then
      (bumpAccess { m with programCounter := pc1,
                           accumulator := memGet m.memory addr } addr, .cont)
    else ({ m with programCounter := pc1 }, .cont)
  else ({ m with programCounter := pc1 }, .cont)

/-- The STORE case: store to the address in the next cell; a protected
address raises the protection error. -/
def execSTORE (m : Machine) : Machine × ExecResult :=
  let pc1 := m.programCounter + 1
  if pc1 < (m.memory.length : Int) then
    let addr := memGet m.memory pc1
    if 0 ≤ addr ∧ addr < (m.memory.length : Int) then
      if canWriteToMemory m addr then
        (bumpAccess { m with programCounter := pc1,
                             memory := m.memory.set addr.toNat m.accumulator } addr, .cont)
      else
        ({ m with programCounter := pc1 },
          .thrown ("Cannot write to protected memory address " ++ toString addr))
    else ({ m with programCounter := pc1 }, .cont)
  else ({ m with programCounter := pc1 }, .cont)

/-- The JMP case: `pc = target - 1`, later incremented by `step`. -/
def execJMP (m : Machine) : Machine × ExecResult :=
  let pc1 := m.programCounter + 1
  if pc1 < (m.memory.length : Int) then
    let addr := memGet m.memory pc1
    if 0 ≤ addr ∧ addr < (m.memory.length : Int) then
      ({ m with programCounter := addr - 1 }, .cont)
    else ({ m with programCounter := pc1 }, .cont)
  else ({ m with programCounter := pc1 }, .cont)

/-- The JZ case. -/
def execJZ (m : Machine) : Machine × ExecResult :=
  let pc1 := m.programCounter + 1
  if pc1 < (m.memory.length : Int) then
    if m.accumulator = 0 then
      let addr := memGet m.memory pc1
      if 0 ≤ addr ∧ addr < (m.memory.length : Int) then
        ({ m with programCounter := addr - 1 }, .cont)
      else ({ m with programCounter := pc1 }, .cont)
    else ({ m with programCounter := pc1 }, .cont)
  else ({ m with programCounter := pc1 }, .cont)

/-- The JNZ case. -/
def execJNZ (m : Machine) : Machine × ExecResult :=
  let pc1 := m.programCounter + 1
  if pc1 < (m.memory.length : Int) then
    if m.accumulator ≠ 0 then
      let addr := memGet m.memory pc1
      if 0 ≤ addr ∧ addr < (m.memory.length : Int) then
        ({ m with programCounter := addr - 1 }, .cont)
      else ({ m with programCounter := pc1 }, .cont)
    else ({ m with programCounter := pc1 }, .cont)
  else ({ m with programCounter := pc1 }, .cont)

/-- The JNP case (jump if the accumulator is positive). -/
def execJNP (m : Machine) : Machine × ExecResult :=
  let pc1 := m.programCounter + 1
  if pc1 < (m.memory.length : Int) then
    if 0 < m.accumulator then
      let addr := memGet m.memory pc1
      if 0 ≤ addr ∧ addr < (m.memory.length : Int) then
        ({ m with programCounter := addr - 1 }, .cont)
      else ({ m with programCounter := pc1 }, .cont)
    else ({ m with programCounter := pc1 }, .cont)
  else ({ m with programCounter := pc1 }, .cont)

/-- The CALL case: overflow check, then push the return address and jump
to an in-range target. -/
def execCALL (m : Machine) : Machine × ExecResult :=
  if m.maxCallDepth ≤ m.callStack.length then
    ({ m with running := false }, .stopError "Call stack overflow")
  else
    let pc1 := m.programCounter + 1
    if pc1 < (m.memory.length : Int) then
      let addr := memGet m.memory pc1
      let m1 := { m with programCounter := pc1, callStack := m.callStack ++ [pc1 + 1] }
      if 0 ≤ addr ∧ addr < (m1.memory.length : Int) then
        ({ m1 with programCounter := addr - 1 }, .cont)
      else (m1, .cont)
    else ({ m with programCounter := pc1 }, .cont)

/-- The RET case: empty-stack return halts, else pop the return address. -/
def execRET (m : Machine) : Machine × ExecResult :=
  if m.callStack.isEmpty then
    ({ m with running := false }, .stopHalt "Return with empty call stack")
  else
    ({ m with programCounter := (m.callStack.getLast?.getD 0) - 1,
              callStack := m.callStack.dropLast }, .cont)

/-- The LOADI case: double-indirect load. -/
def execLOADI (m : Machine) : Machine × ExecResult :=
  let pc1 := m.programCounter + 1
  if pc1 < (m.memory.length : Int) then
    let pointerAddr := memGet m.memory pc1
    if 0 ≤ pointerAddr ∧ pointerAddr < (m.memory.length : Int) then
      let actualAddr := memGet m.memory pointerAddr
      if 0 ≤ actualAddr ∧ actualAddr < (m.memory.length : Int) then
        (bumpAccess { m with programCounter := pc1,
                             accumulator := memGet m.memory actualAddr } actualAddr, .cont)
      else ({ m with programCounter := pc1 }, .cont)
    else ({ m with programCounter := pc1 }, .cont)
  else ({ m with programCounter := pc1 }, .cont)

/-- The STOREI case: double-indirect store, same protection rule as
STORE. -/
def execSTOREI (m : Machine) : Machine × ExecResult :=
  let pc1 := m.programCounter + 1
  if pc1 < (m.memory.length : Int) then
    let pointerAddr := memGet m.memory pc1
    if 0 ≤ pointerAddr ∧ pointerAddr < (m.memory.length : Int) then
      let actualAddr := memGet m.memory pointerAddr
      if 0 ≤ actualAddr ∧ actualAddr < (m.memory.length : Int) then
        if canWriteToMemory m actualAddr then
          (bumpAccess { m with programCounter := pc1,
                               memory := m.memory.set actualAddr.toNat m.accumulator }
            actualAddr, .cont)
        else
          ({ m with programCounter := pc1 },
            .thrown ("Cannot write to protected memory address " ++ toString actualAddr))
      else ({ m with programCounter := pc1 }, .cont)
    else ({ m with programCounter := pc1 }, .cont)
  else ({ m with programCounter := pc1 }, .cont)

/-- Mirror of `SetunEmulator.executeInstruction`: the opcode switch.  Unknown
opcodes fall through to the final no-op case. -/
def executeInstruction (m : Machine) (opcode : Int) : Machine × ExecResult :=
  if opcode = 0 then execHALT m
  else if opcode = 1 then execADD m
  else if opcode = -1 then execSUB m
  else if opcode = 2 then execLOAD m
  else if opcode = -2 then execSTORE m
  else if opcode = 3 then execJMP m
  else if opcode = 4 then execJZ m
  else if opcode = -4 then execJNZ m
  else if opcode = 5 then execJNP m
  else if opcode = 6 then ({ m with accumulator := m.accumulator * 3 }, .cont)
  else if opcode = -6 then ({ m with accumulator := m.accumulator.fdiv 3 }, .cont)
  else if opcode = 7 then execCALL m
  else if opcode = -7 then execRET m
  else if opcode = 8 then ({ m with accumulator := -m.accumulator }, .cont)
  else if opcode = 9 then ({ m with accumulator := m.accumulator + 1 }, .cont)
  else if opcode = -9 then ({ m with accumulator := m.accumulator - 1 }, .cont)
  else if opcode = 10 then execLOADI m
  else if opcode = -10 then execSTOREI m
  else (m, .cont)

/-- Outcome of one `step()` call: returned true, returned false after an
`onHalt` callback, returned false after an `onError` callback, or ended
with a thrown exception escaping to the caller. -/
inductive StepOutcome where
  | ok
  | halted (msg : String)
  | errored (msg : String)
  | thrown (msg : String)
deriving DecidableEq

/-- The body of `SetunEmulator.step` after the instruction-limit check
and optional history snapshot (its argument is the machine with the
snapshot already pushed): address-breakpoint check, fetch, execute,
program-counter and instruction counter increment,
conditional-breakpoint check, end-of-memory check. -/
def stepCore (m1 : Machine) : Machine × StepOutcome :=
  if m1.breakpoints.contains m1.programCounter then
    ({ m1 with running := false, hitBreakpoint := true },
      .halted ("Breakpoint hit at address " ++ toString m1.programCounter))
  else if m1.programCounter < 0 ∨ (m1.memory.length : Int) ≤ m1.programCounter then
    ({ m1 with running := false }, .halted "Program counter out of bounds")
  else
    let m2 := { m1 with instructionRegister := memGet m1.memory m1.programCounter }
    let er := executeInstruction m2 m2.instructionRegister
    match er.2 with
    | .stopHalt msg => (er.1, .halted msg)
    | .stopError msg => (er.1, .errored msg)
    | .thrown msg => (er.1, .thrown msg)
    | .cont =>
      let m3 := { er.1 with programCounter := er.1.programCounter + 1,
                            instructionCount := er.1.instructionCount + 1 }
      match checkConditionalBreakpoints m3 with
      | some cond =>
        ({ m3 with running := false, hitBreakpoint := true }, .halted (condDescription cond))
      | none =>
        if (m3.memory.length : Int) ≤ m3.programCounter then
          ({ m3 with running := false }, .halted "End of memory reached")
        else (m3, .ok)

/-- Mirror of `SetunEmulator.step`: instruction-limit check, history snapshot, then
the fetch-decode-execute body `stepCore`. -/
def step (m : Machine) : Machine × StepOutcome :=
  if m.maxInstructions ≤ m.instructionCount then
    ({ m with running := false },
      .errored "Instruction limit reached (possible infinite loop)")
  else stepCore (if m.historyEnabled then saveStateToHistory m else m)

/-- Mirror of `SetunEmulator.stepBack`: pop the most recent snapshot and restore
every field it captured; on empty history report the error and leave the
machine untouched. -/
def stepBack (m : Machine) : Machine × Bool :=
  match m.executionHistory.getLast? with
  | none => (m, false)
  | some prev =>
    ({ m with accumulator := prev.accumulator,
              programCounter := prev.programCounter,
              instructionRegister := prev.instructionRegister,
              memory := prev.memory,
              callStack := prev.callStack,
              instructionCount := prev.instructionCount,
              executionHistory := m.executionHistory.dropLast }, true)

/-- Mirror of `SetunEmulator.clearHistory`. -/
def clearHistory (m : Machine) : Machine :=
  { m with executionHistory := [] }

/-- Mirror of `SetunEmulator.toggleHistory`: disabling clears existing history. -/
def toggleHistory (m : Machine) (enabled : Bool) : Machine :=
  let m1 := { m with historyEnabled := enabled }
  if enabled then m1 else clearHistory m1

/-- Mirror of `SetunEmulator.reset`: reinitialize the execution state, zero the
memory and access counts, clear the history; breakpoints, conditional
breakpoints, watches and memory protection are left untouched. -/
def reset (m : Machine) : Machine :=
  clearHistory
    { m with accumulator := 0,
             programCounter := 0,
             instructionRegister := 0,
             memory := m.memory.map (fun _ => 0),
             callStack := [],
             running := false,
             instructionCount := 0,
             hitBreakpoint := false,
             memoryAccessCounts := m.memoryAccessCounts.map (fun _ => 0) }

/-- Mirror of `SetunEmulator.addBreakpoint`: set membership add, only in range. -/
def addBreakpoint (m : Machine) (address : Int) : Machine × Bool :=
  if 0 ≤ address ∧ address < (m.memory.length : Int) then
    ({ m with breakpoints :=
        if m.breakpoints.contains address then m.breakpoints
        else m.breakpoints ++ [address] }, true)
  else (m, false)

/-- Mirror of `SetunEmulator.removeBreakpoint`: set membership delete. -/
def removeBreakpoint (m : Machine) (address : Int) : Machine × Bool :=
  ({ m with breakpoints := m.breakpoints.filter (fun a => a != address) },
    m.breakpoints.contains address)

/-- Character-level splitter behind `tokenize`: accumulate the current
token (reversed) and emit it at each whitespace run or at the end. -/
def tokenizeChars : List Char → List Char → List String
  | [], acc => if acc.isEmpty then [] else [String.mk acc.reverse]
  | c :: rest, acc =>
    if c.isWhitespace then
      if acc.isEmpty then tokenizeChars rest []
      else String.mk acc.reverse :: tokenizeChars rest []
    else tokenizeChars rest (c :: acc)

/-- Token list of `loadProgram`: `trim` followed by splitting on
whitespace runs, i.e. the maximal whitespace-free substrings in order. -/
def tokenize (text : String) : List String :=
  tokenizeChars text.data []

/-- The token-loading loop of `loadProgram`: validate and convert each
token, writing it at its ordinal position, silently truncating once
memory is full; the first invalid token aborts with a position-tagged
error. -/
def loadTokens : Machine → Nat → List String → Machine × Option String
  | m, _, [] => (m, none)
  | m, i, t :: rest =>
    if i < m.memory.length then
      if !(validateTernary t) then
        (m, some ("Invalid ternary at position " ++ toString i ++ ": " ++ t))
      else
        match fromBalancedTernary t with
        | .error e => (m, some ("Error parsing instruction " ++ toString i ++ ": " ++ e))
        | .ok v => loadTokens { m with memory := m.memory.set i v } (i + 1) rest
    else (m, none)

/-- Mirror of `SetunEmulator.loadProgram`: full reset, then parse the tokens into
memory. -/
def loadProgram (m : Machine) (programText : String) : Machine × Option String :=
  let m1 := reset m
  if tokenize programText = [] then (m1, none)
  else loadTokens m1 0 (tokenize programText)

/-- Iterated `step`, discarding the outcomes. -/
def stepN : Nat → Machine → Machine
  | 0, m => m
  | k + 1, m => stepN k (step m).1

/-- Iterated `stepBack`, discarding the outcomes. -/
def stepBackN : Nat → Machine → Machine
  | 0, m => m
  | k + 1, m => stepBackN k (stepBack m).1

/-- The snapshots the next `k` steps will record, in order. -/
def snapTrace : Nat → Machine → List Snapshot
  | 0, _ => []
  | k + 1, m => mkSnapshot m :: snapTrace k (step m).1

/-- Value of a digit list read most-significant first. -/
def valueMSB (l : List Int) : Int :=
  l.foldl (fun a d => 3 * a + d) 0

/-- Value of a reversed digit list as the right-to-left loop computes it,
starting at power `p`. -/
def revVal : List Char → Nat → Int
  | [], _ => 0
  | c :: rest, p => (digitOfChar c).getD 0 * (3 : Int) ^ p + revVal rest (p + 1)

/-! ## Spec-side selectors and concrete machines -/

/-- The in-range effective target address of the store instruction at the
current program counter: the operand word for STORE (-2), the word the
operand points at for STOREI (-10); `none` when the instruction is not a
store or any address in the chain is out of range. -/
def storeEffectiveTarget (m : Machine) : Option Int :=
  if memGet m.memory m.programCounter = -2 then
    if m.programCounter + 1 < (m.memory.length : Int) then
      if 0 ≤ memGet m.memory (m.programCounter + 1) ∧
         memGet m.memory (m.programCounter + 1) < (m.memory.length : Int) then
        some (memGet m.memory (m.programCounter + 1))
      else none
    else none
  else if memGet m.memory m.programCounter = -10 then
    if m.programCounter + 1 < (m.memory.length : Int) then
      if 0 ≤ memGet m.memory (m.programCounter + 1) ∧
         memGet m.memory (m.programCounter + 1) < (m.memory.length : Int) then
        if 0 ≤ memGet m.memory (memGet m.memory (m.programCounter + 1)) ∧
           memGet m.memory (memGet m.memory (m.programCounter + 1))
             < (m.memory.length : Int) then
          some (memGet m.memory (memGet m.memory (m.programCounter + 1)))
        else none
      else none
    else none
  else none

/-- Post-load machine with history recording disabled: program "+00" is
the single instruction INC. -/
def c2Machine : Machine :=
  (loadProgram (toggleHistory (mkMachine 3) false) "+00").1

/-- Post-load machine with the default configuration, used to witness the
amended step/step-back inverse. -/
def c2wMachine : Machine :=
  (loadProgram (mkMachine 2) "+00").1

/-- Post-load machine (program "+00", i.e. INC at address 0) with an
address breakpoint at 0. -/
def c3Machine : Machine :=
  (addBreakpoint (loadProgram (mkMachine 3) "+00").1 0).1

/-- Post-load machine with a breakpoint at address 0, for the history
claim. -/
def c4Machine : Machine :=
  (addBreakpoint (loadProgram (mkMachine 3) "+00").1 0).1

/-- Machine about to run STORE 2 ("-+ +-") with address 2
write-protected. -/
def c5Machine : Machine :=
  { (loadProgram (mkMachine 3) "-+ +-").1 with
      protectedMemory := [2], accumulator := 42 }

/-- Machine about to run STOREI with pointer word 2 and pointee word 3:
memory [-10, 2, 3, 7], with the effective target address 3
write-protected. -/
def c5iMachine : Machine :=
  { (loadProgram (mkMachine 4) "-0- +- +0 +-+").1 with
      protectedMemory := [3], accumulator := 42 }

/-- Machine whose first instruction is RET (-7) on an empty call stack. -/
def c6Machine : Machine :=
  (loadProgram (mkMachine 3) "-+-").1

/-- Machine with CALL 3 at address 0 and RET at the call target:
memory [7, 3, 0, -7, 0]. -/
def c8Machine : Machine :=
  (loadProgram (mkMachine 5) "+-+ +0 0 -+- 0").1

/-- Machine with CALL to the out-of-range target 9: memory [7, 9, 0]. -/
def c10Machine : Machine :=
  (loadProgram (mkMachine 3) "+-+ +00 0").1

/-! ## Codec lemmas -/

theorem valueMSB_foldl_acc (l : List Int) :
    ∀ a : Int, l.foldl (fun x d => 3 * x + d) a = a * 3 ^ l.length + valueMSB l := by
  induction l with
  | nil => intro a; simp [valueMSB]
  | cons d l ih =>
    intro a
    simp only [List.foldl_cons, List.length_cons, valueMSB] at *
    rw [ih (3 * a + d), ih (3 * 0 + d)]
    ring

theorem valueMSB_cons (d : Int) (l : List Int) :
    valueMSB (d :: l) = d * 3 ^ l.length + valueMSB l := by
  simp only [valueMSB, List.foldl_cons]
  simpa using valueMSB_foldl_acc l d

theorem valueMSB_concat (l : List Int) (d : Int) :
    valueMSB (l ++ [d]) = 3 * valueMSB l + d := by
  simp [valueMSB, List.foldl_append]

theorem valueMSB_map_neg (l : List Int) :
    valueMSB (l.map (fun d => -d)) = -valueMSB l := by
  induction l with
  | nil => simp [valueMSB]
  | cons d l ih => simp [valueMSB_cons, ih]; ring

/-- The digit loop of `toBalancedTernary` is value-correct. -/
theorem toBTDigits_value (n : Nat) : valueMSB (toBTDigits n) = n := by
  induction n using Nat.strong_induction_on with
  | _ n ih =>
    unfold toBTDigits
    by_cases h : n = 0
    · simp [h, valueMSB]
    · simp only [h, dite_false]
      by_cases h2 : n % 3 = 2
      · simp only [h2, dite_true]
        rw [valueMSB_concat, ih (n / 3 + 1) (by omega)]
        push_cast
        omega
      · simp only [h2, dite_false]
        rw [valueMSB_concat, ih (n / 3) (by omega)]
        push_cast
        omega

/-- Every digit the loop produces is a balanced-ternary digit. -/
theorem toBTDigits_mem (n : Nat) : ∀ d ∈ toBTDigits n, d = -1 ∨ d = 0 ∨ d = 1 := by
  induction n using Nat.strong_induction_on with
  | _ n ih =>
    unfold toBTDigits
    by_cases h : n = 0
    · simp [h]
    · simp only [h, dite_false]
      by_cases h2 : n % 3 = 2
      · simp only [h2, dite_true]
        intro d hd
        rcases List.mem_append.mp hd with hd | hd
        · exact ih (n / 3 + 1) (by omega) d hd
        · simp at hd; omega
      · simp only [h2, dite_false]
        intro d hd
        rcases List.mem_append.mp hd with hd | hd
        · exact ih (n / 3) (by omega) d hd
        · simp at hd; omega

theorem toBTDigits_ne_nil (n : Nat) (h : n ≠ 0) : toBTDigits n ≠ [] := by
  unfold toBTDigits
  by_cases h2 : n % 3 = 2 <;> simp [h, h2]

theorem digitOfChar_digitChar (d : Int) (h : d = -1 ∨ d = 0 ∨ d = 1) :
    digitOfChar (digitChar d) = some d := by
  rcases h with h | h | h <;> subst h <;> decide

theorem revVal_concat (xs : List Char) (c : Char) :
    ∀ p : Nat, revVal (xs ++ [c]) p
      = revVal xs p + (digitOfChar c).getD 0 * (3 : Int) ^ (p + xs.length) := by
  induction xs with
  | nil => intro p; simp [revVal]
  | cons x xs ih =>
    intro p
    have hexp : p + (x :: xs).length = (p + 1) + xs.length := by
      simp only [List.length_cons]; omega
    rw [List.cons_append]
    simp only [revVal]
    rw [ih (p + 1), hexp]
    ring

theorem revVal_reverse (l : List Char) :
    revVal l.reverse 0 = specValue l := by
  suffices h : ∀ (l : List Char) (p : Nat),
      revVal l.reverse p = specValue l * (3 : Int) ^ p by simpa using h l 0
  intro l
  induction l with
  | nil => intro p; simp [revVal, specValue]
  | cons c rest ih =>
    intro p
    simp only [List.reverse_cons, specValue, revVal_concat, ih p, List.length_reverse]
    rw [pow_add]
    ring

/-- Full characterization of the right-to-left parsing loop: it errors on
the first invalid character (scanning from the head of the reversed list)
and otherwise computes the power sum. -/
theorem fromBTAux_characterization (l : List Char) : ∀ p : Nat,
    fromBTAux l p
      = match (l.filter (fun c => (digitOfChar c).isNone)).head? with
        | some c => .error ("Invalid ternary digit: " ++ String.singleton c)
        | none => .ok (revVal l p) := by
  induction l with
  | nil => intro p; simp [fromBTAux, revVal]
  | cons c rest ih =>
    intro p
    cases h : digitOfChar c with
    | none =>
      simp [fromBTAux, h, List.filter_cons, Option.isNone]
    | some d =>
      have hfilter : (c :: rest).filter (fun c => (digitOfChar c).isNone)
          = rest.filter (fun c => (digitOfChar c).isNone) := by
        simp [List.filter_cons, h]
      rw [fromBTAux, h, ih (p + 1), hfilter]
      cases hh : (rest.filter (fun c => (digitOfChar c).isNone)).head? with
      | some c' => simp
      | none =>
        simp only [revVal, h, Option.getD_some]
        rw [Int.add_comm]

/-- The function `fromBalancedTernary` refines its specification: error on the
rightmost invalid character, else the `digit * 3 ^ power` sum. -/
theorem fromBT_eq_spec (s : String) : fromBalancedTernary s = fromBTSpec s := by
  rw [fromBalancedTernary, fromBTSpec, lastInvalid?]
  by_cases h : s.data.isEmpty
  · have : s.data = [] := by simpa [List.isEmpty_iff] using h
    simp [this, h, specValue]
  · rw [if_neg h, fromBTAux_characterization, List.filter_reverse, List.head?_reverse,
      revVal_reverse]

theorem specValue_map_digitChar (l : List Int) (h : ∀ d ∈ l, d = -1 ∨ d = 0 ∨ d = 1) :
    specValue (l.map digitChar) = valueMSB l := by
  induction l with
  | nil => simp [specValue, valueMSB]
  | cons d l ih =>
    simp only [List.map_cons, specValue, List.length_map]
    rw [digitOfChar_digitChar d (h d (by simp)), Option.getD_some,
      ih (fun x hx => h x (by simp [hx])), valueMSB_cons]

theorem filter_invalid_map_digitChar (l : List Int)
    (h : ∀ d ∈ l, d = -1 ∨ d = 0 ∨ d = 1) :
    (l.map digitChar).filter (fun c => (digitOfChar c).isNone) = [] := by
  rw [List.filter_eq_nil_iff]
  intro c hc
  obtain ⟨d, hd, rfl⟩ := List.mem_map.mp hc
  rw [digitOfChar_digitChar d (h d hd)]
  simp

theorem fromBTSpec_mk_digits (l : List Int) (h : ∀ d ∈ l, d = -1 ∨ d = 0 ∨ d = 1) :
    fromBTSpec (String.mk (l.map digitChar)) = .ok (valueMSB l) := by
  have hdata : (String.mk (l.map digitChar)).data = l.map digitChar := rfl
  rw [fromBTSpec, lastInvalid?, hdata, filter_invalid_map_digitChar l h]
  simp [specValue_map_digitChar l h]

/-! ## Frame lemmas: bumpAccess only touches the access counters -/

@[simp] theorem bumpAccess_accumulator (m : Machine) (a : Int) :
    (bumpAccess m a).accumulator = m.accumulator := by
  unfold bumpAccess; split <;> rfl

@[simp] theorem bumpAccess_programCounter (m : Machine) (a : Int) :
    (bumpAccess m a).programCounter = m.programCounter := by
  unfold bumpAccess; split <;> rfl

@[simp] theorem bumpAccess_instructionRegister (m : Machine) (a : Int) :
    (bumpAccess m a).instructionRegister = m.instructionRegister := by
  unfold bumpAccess; split <;> rfl

@[simp] theorem bumpAccess_memorySize (m : Machine) (a : Int) :
    (bumpAccess m a).memorySize = m.memorySize := by
  unfold bumpAccess; split <;> rfl

@[simp] theorem bumpAccess_memory (m : Machine) (a : Int) :
    (bumpAccess m a).memory = m.memory := by
  unfold bumpAccess; split <;> rfl

@[simp] theorem bumpAccess_callStack (m : Machine) (a : Int) :
    (bumpAccess m a).callStack = m.callStack := by
  unfold bumpAccess; split <;> rfl

@[simp] theorem bumpAccess_maxCallDepth (m : Machine) (a : Int) :
    (bumpAccess m a).maxCallDepth = m.maxCallDepth := by
  unfold bumpAccess; split <;> rfl

@[simp] theorem bumpAccess_breakpoints (m : Machine) (a : Int) :
    (bumpAccess m a).breakpoints = m.breakpoints := by
  unfold bumpAccess; split <;> rfl

@[simp] theorem bumpAccess_conditionalBreakpoints (m : Machine) (a : Int) :
    (bumpAccess m a).conditionalBreakpoints = m.conditionalBreakpoints := by
  unfold bumpAccess; split <;> rfl

@[simp] theorem bumpAccess_executionHistory (m : Machine) (a : Int) :
    (bumpAccess m a).executionHistory = m.executionHistory := by
  unfold bumpAccess; split <;> rfl

@[simp] theorem bumpAccess_maxHistorySize (m : Machine) (a : Int) :
    (bumpAccess m a).maxHistorySize = m.maxHistorySize := by
  unfold bumpAccess; split <;> rfl

@[simp] theorem bumpAccess_historyEnabled (m : Machine) (a : Int) :
    (bumpAccess m a).historyEnabled = m.historyEnabled := by
  unfold bumpAccess; split <;> rfl

@[simp] theorem bumpAccess_watches (m : Machine) (a : Int) :
    (bumpAccess m a).watches = m.watches := by
  unfold bumpAccess; split <;> rfl

@[simp] theorem bumpAccess_protectedMemory (m : Machine) (a : Int) :
    (bumpAccess m a).protectedMemory = m.protectedMemory := by
  unfold bumpAccess; split <;> rfl

@[simp] theorem bumpAccess_heatmapEnabled (m : Machine) (a : Int) :
    (bumpAccess m a).heatmapEnabled = m.heatmapEnabled := by
  unfold bumpAccess; split <;> rfl

@[simp] theorem bumpAccess_running (m : Machine) (a : Int) :
    (bumpAccess m a).running = m.running := by
  unfold bumpAccess; split <;> rfl

@[simp] theorem bumpAccess_instructionCount (m : Machine) (a : Int) :
    (bumpAccess m a).instructionCount = m.instructionCount := by
  unfold bumpAccess; split <;> rfl

@[simp] theorem bumpAccess_maxInstructions (m : Machine) (a : Int) :
    (bumpAccess m a).maxInstructions = m.maxInstructions := by
  unfold bumpAccess; split <;> rfl

@[simp] theorem bumpAccess_hitBreakpoint (m : Machine) (a : Int) :
    (bumpAccess m a).hitBreakpoint = m.hitBreakpoint := by
  unfold bumpAccess; split <;> rfl

/-! ## Frame lemmas: executeInstruction never touches the history or its configuration, nor the instruction counter -/

theorem execHALT_frame (m : Machine) :
    (execHALT m).1.executionHistory = m.executionHistory ∧
    (execHALT m).1.historyEnabled = m.historyEnabled ∧
    (execHALT m).1.maxHistorySize = m.maxHistorySize ∧
    (execHALT m).1.maxInstructions = m.maxInstructions ∧
    (execHALT m).1.instructionCount = m.instructionCount := by
  exact ⟨rfl, rfl, rfl, rfl, rfl⟩

theorem execADD_frame (m : Machine) :
    (execADD m).1.executionHistory = m.executionHistory ∧
    (execADD m).1.historyEnabled = m.historyEnabled ∧
    (execADD m).1.maxHistorySize = m.maxHistorySize ∧
    (execADD m).1.maxInstructions = m.maxInstructions ∧
    (execADD m).1.instructionCount = m.instructionCount := by
  unfold execADD
  try dsimp only
  repeat' split
  all_goals refine ⟨?_, ?_, ?_, ?_, ?_⟩ <;> simp

theorem execSUB_frame (m : Machine) :
    (execSUB m).1.executionHistory = m.executionHistory ∧
    (execSUB m).1.historyEnabled = m.historyEnabled ∧
    (execSUB m).1.maxHistorySize = m.maxHistorySize ∧
    (execSUB m).1.maxInstructions = m.maxInstructions ∧
    (execSUB m).1.instructionCount = m.instructionCount := by
  unfold execSUB
  try dsimp only
  repeat' split
  all_goals refine ⟨?_, ?_, ?_, ?_, ?_⟩ <;> simp

theorem execLOAD_frame (m : Machine) :
    (execLOAD m).1.executionHistory = m.executionHistory ∧
    (execLOAD m).1.historyEnabled = m.historyEnabled ∧
    (execLOAD m).1.maxHistorySize = m.maxHistorySize ∧
    (execLOAD m).1.maxInstructions = m.maxInstructions ∧
    (execLOAD m).1.instructionCount = m.instructionCount := by
  unfold execLOAD
  try dsimp only
  repeat' split
  all_goals refine ⟨?_, ?_, ?_, ?_, ?_⟩ <;> simp

theorem execSTORE_frame (m : Machine) :
    (execSTORE m).1.executionHistory = m.executionHistory ∧
    (execSTORE m).1.historyEnabled = m.historyEnabled ∧
    (execSTORE m).1.maxHistorySize = m.maxHistorySize ∧
    (execSTORE m).1.maxInstructions = m.maxInstructions ∧
    (execSTORE m).1.instructionCount = m.instructionCount := by
  unfold execSTORE
  try dsimp only
  repeat' split
  all_goals refine ⟨?_, ?_, ?_, ?_, ?_⟩ <;> simp

theorem execJMP_frame (m : Machine) :
    (execJMP m).1.executionHistory = m.executionHistory ∧
    (execJMP m).1.historyEnabled = m.historyEnabled ∧
    (execJMP m).1.maxHistorySize = m.maxHistorySize ∧
    (execJMP m).1.maxInstructions = m.maxInstructions ∧
    (execJMP m).1.instructionCount = m.instructionCount := by
  unfold execJMP
  try dsimp only
  repeat' split
  all_goals refine ⟨?_, ?_, ?_, ?_, ?_⟩ <;> simp

theorem execJZ_frame (m : Machine) :
    (execJZ m).1.executionHistory = m.executionHistory ∧
    (execJZ m).1.historyEnabled = m.historyEnabled ∧
    (execJZ m).1.maxHistorySize = m.maxHistorySize ∧
    (execJZ m).1.maxInstructions = m.maxInstructions ∧
    (execJZ m).1.instructionCount = m.instructionCount := by
  unfold execJZ
  try dsimp only
  repeat' split
  all_goals refine ⟨?_, ?_, ?_, ?_, ?_⟩ <;> simp

theorem execJNZ_frame (m : Machine) :
    (execJNZ m).1.executionHistory = m.executionHistory ∧
    (execJNZ m).1.historyEnabled = m.historyEnabled ∧
    (execJNZ m).1.maxHistorySize = m.maxHistorySize ∧
    (execJNZ m).1.maxInstructions = m.maxInstructions ∧
    (execJNZ m).1.instructionCount = m.instructionCount := by
  unfold execJNZ
  try dsimp only
  repeat' split
  all_goals refine ⟨?_, ?_, ?_, ?_, ?_⟩ <;> simp

theorem execJNP_frame (m : Machine) :
    (execJNP m).1.executionHistory = m.executionHistory ∧
    (execJNP m).1.historyEnabled = m.historyEnabled ∧
    (execJNP m).1.maxHistorySize = m.maxHistorySize ∧
    (execJNP m).1.maxInstructions = m.maxInstructions ∧
    (execJNP m).1.instructionCount = m.instructionCount := by
  unfold execJNP
  try dsimp only
  repeat' split
  all_goals refine ⟨?_, ?_, ?_, ?_, ?_⟩ <;> simp

theorem execCALL_frame (m : Machine) :
    (execCALL m).1.executionHistory = m.executionHistory ∧
    (execCALL m).1.historyEnabled = m.historyEnabled ∧
    (execCALL m).1.maxHistorySize = m.maxHistorySize ∧
    (execCALL m).1.maxInstructions = m.maxInstructions ∧
    (execCALL m).1.instructionCount = m.instructionCount := by
  unfold execCALL
  try dsimp only
  repeat' split
  all_goals refine ⟨?_, ?_, ?_, ?_, ?_⟩ <;> simp

theorem execRET_frame (m : Machine) :
    (execRET m).1.executionHistory = m.executionHistory ∧
    (execRET m).1.historyEnabled = m.historyEnabled ∧
    (execRET m).1.maxHistorySize = m.maxHistorySize ∧
    (execRET m).1.maxInstructions = m.maxInstructions ∧
    (execRET m).1.instructionCount = m.instructionCount := by
  unfold execRET
  try dsimp only
  repeat' split
  all_goals refine ⟨?_, ?_, ?_, ?_, ?_⟩ <;> simp

theorem execLOADI_frame (m : Machine) :
    (execLOADI m).1.executionHistory = m.executionHistory ∧
    (execLOADI m).1.historyEnabled = m.historyEnabled ∧
    (execLOADI m).1.maxHistorySize = m.maxHistorySize ∧
    (execLOADI m).1.maxInstructions = m.maxInstructions ∧
    (execLOADI m).1.instructionCount = m.instructionCount := by
  unfold execLOADI
  try dsimp only
  repeat' split
  all_goals refine ⟨?_, ?_, ?_, ?_, ?_⟩ <;> simp

theorem execSTOREI_frame (m : Machine) :
    (execSTOREI m).1.executionHistory = m.executionHistory ∧
    (execSTOREI m).1.historyEnabled = m.historyEnabled ∧
    (execSTOREI m).1.maxHistorySize = m.maxHistorySize ∧
    (execSTOREI m).1.maxInstructions = m.maxInstructions ∧
    (execSTOREI m).1.instructionCount = m.instructionCount := by
  unfold execSTOREI
  try dsimp only
  repeat' split
  all_goals refine ⟨?_, ?_, ?_, ?_, ?_⟩ <;> simp

theorem executeInstruction_frame (m : Machine) (op : Int) :
    (executeInstruction m op).1.executionHistory = m.executionHistory ∧
    (executeInstruction m op).1.historyEnabled = m.historyEnabled ∧
    (executeInstruction m op).1.maxHistorySize = m.maxHistorySize ∧
    (executeInstruction m op).1.maxInstructions = m.maxInstructions ∧
    (executeInstruction m op).1.instructionCount = m.instructionCount := by
  unfold executeInstruction
  by_cases h0 : op = 0
  · rw [if_pos h0]; exact execHALT_frame m
  rw [if_neg h0]
  by_cases h1 : op = 1
  · rw [if_pos h1]; exact execADD_frame m
  rw [if_neg h1]
  by_cases h2 : op = -1
  · rw [if_pos h2]; exact execSUB_frame m
  rw [if_neg h2]
  by_cases h3 : op = 2
  · rw [if_pos h3]; exact execLOAD_frame m
  rw [if_neg h3]
  by_cases h4 : op = -2
  · rw [if_pos h4]; exact execSTORE_frame m
  rw [if_neg h4]
  by_cases h5 : op = 3
  · rw [if_pos h5]; exact execJMP_frame m
  rw [if_neg h5]
  by_cases h6 : op = 4
  · rw [if_pos h6]; exact execJZ_frame m
  rw [if_neg h6]
  by_cases h7 : op = -4
  · rw [if_pos h7]; exact execJNZ_frame m
  rw [if_neg h7]
  by_cases h8 : op = 5
  · rw [if_pos h8]; exact execJNP_frame m
  rw [if_neg h8]
  by_cases h9 : op = 6
  · rw [if_pos h9]; exact ⟨rfl, rfl, rfl, rfl, rfl⟩
  rw [if_neg h9]
  by_cases h10 : op = -6
  · rw [if_pos h10]; exact ⟨rfl, rfl, rfl, rfl, rfl⟩
  rw [if_neg h10]
  by_cases h11 : op = 7
  · rw [if_pos h11]; exact execCALL_frame m
  rw [if_neg h11]
  by_cases h12 : op = -7
  · rw [if_pos h12]; exact execRET_frame m
  rw [if_neg h12]
  by_cases h13 : op = 8
  · rw [if_pos h13]; exact ⟨rfl, rfl, rfl, rfl, rfl⟩
  rw [if_neg h13]
  by_cases h14 : op = 9
  · rw [if_pos h14]; exact ⟨rfl, rfl, rfl, rfl, rfl⟩
  rw [if_neg h14]
  by_cases h15 : op = -9
  · rw [if_pos h15]; exact ⟨rfl, rfl, rfl, rfl, rfl⟩
  rw [if_neg h15]
  by_cases h16 : op = 10
  · rw [if_pos h16]; exact execLOADI_frame m
  rw [if_neg h16]
  by_cases h17 : op = -10
  · rw [if_pos h17]; exact execSTOREI_frame m
  rw [if_neg h17]
  exact ⟨rfl, rfl, rfl, rfl, rfl⟩

/-! ## Frame lemmas: saveStateToHistory touches only the history -/

@[simp] theorem saveStateToHistory_accumulator (m : Machine) :
    (saveStateToHistory m).accumulator = m.accumulator := rfl

@[simp] theorem saveStateToHistory_programCounter (m : Machine) :
    (saveStateToHistory m).programCounter = m.programCounter := rfl

@[simp] theorem saveStateToHistory_instructionRegister (m : Machine) :
    (saveStateToHistory m).instructionRegister = m.instructionRegister := rfl

@[simp] theorem saveStateToHistory_memorySize (m : Machine) :
    (saveStateToHistory m).memorySize = m.memorySize := rfl

@[simp] theorem saveStateToHistory_memory (m : Machine) :
    (saveStateToHistory m).memory = m.memory := rfl

@[simp] theorem saveStateToHistory_callStack (m : Machine) :
    (saveStateToHistory m).callStack = m.callStack := rfl

@[simp] theorem saveStateToHistory_maxCallDepth (m : Machine) :
    (saveStateToHistory m).maxCallDepth = m.maxCallDepth := rfl

@[simp] theorem saveStateToHistory_breakpoints (m : Machine) :
    (saveStateToHistory m).breakpoints = m.breakpoints := rfl

@[simp] theorem saveStateToHistory_conditionalBreakpoints (m : Machine) :
    (saveStateToHistory m).conditionalBreakpoints = m.conditionalBreakpoints := rfl

@[simp] theorem saveStateToHistory_maxHistorySize (m : Machine) :
    (saveStateToHistory m).maxHistorySize = m.maxHistorySize := rfl

@[simp] theorem saveStateToHistory_historyEnabled (m : Machine) :
    (saveStateToHistory m).historyEnabled = m.historyEnabled := rfl

@[simp] theorem saveStateToHistory_watches (m : Machine) :
    (saveStateToHistory m).watches = m.watches := rfl

@[simp] theorem saveStateToHistory_protectedMemory (m : Machine) :
    (saveStateToHistory m).protectedMemory = m.protectedMemory := rfl

@[simp] theorem saveStateToHistory_heatmapEnabled (m : Machine) :
    (saveStateToHistory m).heatmapEnabled = m.heatmapEnabled := rfl

@[simp] theorem saveStateToHistory_running (m : Machine) :
    (saveStateToHistory m).running = m.running := rfl

@[simp] theorem saveStateToHistory_instructionCount (m : Machine) :
    (saveStateToHistory m).instructionCount = m.instructionCount := rfl

@[simp] theorem saveStateToHistory_maxInstructions (m : Machine) :
    (saveStateToHistory m).maxInstructions = m.maxInstructions := rfl

@[simp] theorem saveStateToHistory_hitBreakpoint (m : Machine) :
    (saveStateToHistory m).hitBreakpoint = m.hitBreakpoint := rfl

@[simp] theorem saveStateToHistory_memoryAccessCounts (m : Machine) :
    (saveStateToHistory m).memoryAccessCounts = m.memoryAccessCounts := rfl

@[simp] theorem saveStateToHistory_executionHistory (m : Machine) :
    (saveStateToHistory m).executionHistory
      = pushHist m.executionHistory (mkSnapshot m) m.maxHistorySize := rfl

/-! ## Projections of the executeInstruction frame lemma -/

@[simp] theorem executeInstruction_executionHistory (m : Machine) (op : Int) :
    (executeInstruction m op).1.executionHistory = m.executionHistory :=
  (executeInstruction_frame m op).1

@[simp] theorem executeInstruction_historyEnabled (m : Machine) (op : Int) :
    (executeInstruction m op).1.historyEnabled = m.historyEnabled :=
  (executeInstruction_frame m op).2.1

@[simp] theorem executeInstruction_maxHistorySize (m : Machine) (op : Int) :
    (executeInstruction m op).1.maxHistorySize = m.maxHistorySize :=
  (executeInstruction_frame m op).2.2.1

@[simp] theorem executeInstruction_maxInstructions (m : Machine) (op : Int) :
    (executeInstruction m op).1.maxInstructions = m.maxInstructions :=
  (executeInstruction_frame m op).2.2.2.1

@[simp] theorem executeInstruction_instructionCount (m : Machine) (op : Int) :
    (executeInstruction m op).1.instructionCount = m.instructionCount :=
  (executeInstruction_frame m op).2.2.2.2

/-! ## Step-level lemmas for the history subsystem -/

theorem stepCore_executionHistory (m1 : Machine) :
    (stepCore m1).1.executionHistory = m1.executionHistory := by
  unfold stepCore
  try dsimp only
  repeat' split
  all_goals simp

theorem stepCore_historyEnabled (m1 : Machine) :
    (stepCore m1).1.historyEnabled = m1.historyEnabled := by
  unfold stepCore
  try dsimp only
  repeat' split
  all_goals simp

theorem stepCore_maxHistorySize (m1 : Machine) :
    (stepCore m1).1.maxHistorySize = m1.maxHistorySize := by
  unfold stepCore
  try dsimp only
  repeat' split
  all_goals simp

theorem stepCore_maxInstructions (m1 : Machine) :
    (stepCore m1).1.maxInstructions = m1.maxInstructions := by
  unfold stepCore
  try dsimp only
  repeat' split
  all_goals simp

theorem stepCore_instructionCount_le (m1 : Machine) :
    (stepCore m1).1.instructionCount ≤ m1.instructionCount + 1 := by
  unfold stepCore
  try dsimp only
  repeat' split
  all_goals simp

theorem step_executionHistory (m : Machine)
    (hc : m.instructionCount < m.maxInstructions) (hE : m.historyEnabled = true) :
    (step m).1.executionHistory
      = pushHist m.executionHistory (mkSnapshot m) m.maxHistorySize := by
  unfold step
  rw [if_neg (by omega), if_pos hE, stepCore_executionHistory]
  simp

theorem step_historyEnabled (m : Machine) :
    (step m).1.historyEnabled = m.historyEnabled := by
  unfold step
  split
  · rfl
  · rw [stepCore_historyEnabled]
    split <;> simp

theorem step_maxHistorySize (m : Machine) :
    (step m).1.maxHistorySize = m.maxHistorySize := by
  unfold step
  split
  · rfl
  · rw [stepCore_maxHistorySize]
    split <;> simp

theorem step_maxInstructions (m : Machine) :
    (step m).1.maxInstructions = m.maxInstructions := by
  unfold step
  split
  · rfl
  · rw [stepCore_maxInstructions]
    split <;> simp

theorem step_instructionCount_le (m : Machine) :
    (step m).1.instructionCount ≤ m.instructionCount + 1 := by
  unfold step
  split
  · simp
  · refine le_trans (stepCore_instructionCount_le _) ?_
    split <;> simp

theorem pushHist_no_evict (h : List Snapshot) (s : Snapshot) (maxH : Nat)
    (hlen : h.length < maxH) : pushHist h s maxH = h ++ [s] := by
  unfold pushHist
  rw [if_neg]
  simp
  omega

theorem stepBack_concat (m : Machine) (l : List Snapshot) (a : Snapshot)
    (h : m.executionHistory = l ++ [a]) :
    stepBack m
      = ({ m with accumulator := a.accumulator,
                  programCounter := a.programCounter,
                  instructionRegister := a.instructionRegister,
                  memory := a.memory,
                  callStack := a.callStack,
                  instructionCount := a.instructionCount,
                  executionHistory := l }, true) := by
  unfold stepBack
  rw [h, List.getLast?_concat, List.dropLast_concat]

/-! ## History round-trip lemmas -/

/-- Running `k` steps from a state whose history has room appends exactly
the `k` pre-step snapshots, oldest first. -/
theorem stepN_executionHistory : ∀ (k : Nat) (m : Machine),
    m.historyEnabled = true →
    m.instructionCount + k ≤ m.maxInstructions →
    m.executionHistory.length + k ≤ m.maxHistorySize →
    (stepN k m).executionHistory = m.executionHistory ++ snapTrace k m := by
  intro k
  induction k with
  | zero => intro m _ _ _; simp [stepN, snapTrace]
  | succ k ih =>
    intro m hE hc hh
    have hcount : m.instructionCount < m.maxInstructions := by omega
    have hhist : (step m).1.executionHistory = m.executionHistory ++ [mkSnapshot m] := by
      rw [step_executionHistory m hcount hE, pushHist_no_evict]
      omega
    have hE2 : (step m).1.historyEnabled = true := by rw [step_historyEnabled]; exact hE
    have hc2 : (step m).1.instructionCount + k ≤ (step m).1.maxInstructions := by
      have := step_instructionCount_le m
      rw [step_maxInstructions]
      omega
    have hh2 : (step m).1.executionHistory.length + k ≤ (step m).1.maxHistorySize := by
      rw [hhist, step_maxHistorySize]
      simp only [List.length_append, List.length_singleton]
      omega
    simp only [stepN, snapTrace]
    rw [ih (step m).1 hE2 hc2 hh2, hhist]
    simp

/-- Popping `length S + 1` snapshots from a history of the shape
`l ++ a :: S` lands on the restore of `a`: every captured field comes
back exactly. -/
theorem stepBackN_restore : ∀ (S : List Snapshot) (m : Machine) (l : List Snapshot)
    (a : Snapshot), m.executionHistory = l ++ a :: S →
    (stepBackN (S.length + 1) m).accumulator = a.accumulator ∧
    (stepBackN (S.length + 1) m).programCounter = a.programCounter ∧
    (stepBackN (S.length + 1) m).instructionRegister = a.instructionRegister ∧
    (stepBackN (S.length + 1) m).memory = a.memory ∧
    (stepBackN (S.length + 1) m).callStack = a.callStack ∧
    (stepBackN (S.length + 1) m).instructionCount = a.instructionCount := by
  intro S
  induction S using List.reverseRecOn with
  | nil =>
    intro m l a h
    have hsb := stepBack_concat m l a h
    simp [stepBackN, hsb]
  | append_singleton S b ih =>
    intro m l a h
    have h2 : m.executionHistory = (l ++ a :: S) ++ [b] := by rw [h]; simp
    have hsb := stepBack_concat m (l ++ a :: S) b h2
    have hlen : (S ++ [b]).length + 1 = S.length + 1 + 1 := by simp
    rw [hlen]
    have hh3 : (stepBack m).1.executionHistory = l ++ a :: S := by rw [hsb]
    simp only [stepBackN]
    exact ih (stepBack m).1 l a hh3

theorem snapTrace_length (k : Nat) : ∀ m : Machine, (snapTrace k m).length = k := by
  induction k with
  | zero => intro m; simp [snapTrace]
  | succ k ih => intro m; simp [snapTrace, ih]

/-! ## Symbolic execution-path lemmas -/

theorem canWriteToMemory_protected (m : Machine) (addr : Int)
    (h0 : 0 ≤ addr) (h1 : addr < (m.memory.length : Int))
    (hp : m.protectedMemory.contains addr = true) :
    canWriteToMemory m addr = false := by
  unfold canWriteToMemory
  rw [if_neg (by omega)]
  simpa using hp

theorem execSTORE_protected (m : Machine)
    (hpc1 : m.programCounter + 1 < (m.memory.length : Int))
    (ha : 0 ≤ memGet m.memory (m.programCounter + 1) ∧
          memGet m.memory (m.programCounter + 1) < (m.memory.length : Int))
    (hp : m.protectedMemory.contains (memGet m.memory (m.programCounter + 1)) = true) :
    execSTORE m = ({ m with programCounter := m.programCounter + 1 },
      .thrown ("Cannot write to protected memory address "
        ++ toString (memGet m.memory (m.programCounter + 1)))) := by
  unfold execSTORE
  dsimp only
  rw [if_pos hpc1, if_pos ha,
    if_neg (by rw [canWriteToMemory_protected m _ ha.1 ha.2 hp]; exact Bool.false_ne_true)]

theorem execSTOREI_protected (m : Machine)
    (hpc1 : m.programCounter + 1 < (m.memory.length : Int))
    (hptr : 0 ≤ memGet m.memory (m.programCounter + 1) ∧
            memGet m.memory (m.programCounter + 1) < (m.memory.length : Int))
    (ha : 0 ≤ memGet m.memory (memGet m.memory (m.programCounter + 1)) ∧
          memGet m.memory (memGet m.memory (m.programCounter + 1)) < (m.memory.length : Int))
    (hp : m.protectedMemory.contains
            (memGet m.memory (memGet m.memory (m.programCounter + 1))) = true) :
    execSTOREI m = ({ m with programCounter := m.programCounter + 1 },
      .thrown ("Cannot write to protected memory address "
        ++ toString (memGet m.memory (memGet m.memory (m.programCounter + 1))))) := by
  unfold execSTOREI
  dsimp only
  rw [if_pos hpc1, if_pos hptr, if_pos ha,
    if_neg (by rw [canWriteToMemory_protected m _ ha.1 ha.2 hp]; exact Bool.false_ne_true)]

theorem execCALL_inrange (m : Machine)
    (hdepth : m.callStack.length < m.maxCallDepth)
    (hpc1 : m.programCounter + 1 < (m.memory.length : Int))
    (ha : 0 ≤ memGet m.memory (m.programCounter + 1) ∧
          memGet m.memory (m.programCounter + 1) < (m.memory.length : Int)) :
    execCALL m = ({ m with programCounter := memGet m.memory (m.programCounter + 1) - 1,
                           callStack := m.callStack ++ [m.programCounter + 2] }, .cont) := by
  unfold execCALL
  rw [if_neg (by omega)]
  dsimp only
  rw [if_pos hpc1, if_pos ha]
  have : m.programCounter + 1 + 1 = m.programCounter + 2 := by ring
  rw [this]

theorem execCALL_outrange (m : Machine)
    (hdepth : m.callStack.length < m.maxCallDepth)
    (hpc1 : m.programCounter + 1 < (m.memory.length : Int))
    (ha : ¬ (0 ≤ memGet m.memory (m.programCounter + 1) ∧
             memGet m.memory (m.programCounter + 1) < (m.memory.length : Int))) :
    execCALL m = ({ m with programCounter := m.programCounter + 1,
                           callStack := m.callStack ++ [m.programCounter + 2] }, .cont) := by
  unfold execCALL
  rw [if_neg (by omega)]
  dsimp only
  rw [if_pos hpc1, if_neg ha]
  have : m.programCounter + 1 + 1 = m.programCounter + 2 := by ring
  rw [this]

theorem execRET_pop (m : Machine) (l : List Int) (r : Int)
    (hcs : m.callStack = l ++ [r]) :
    execRET m = ({ m with programCounter := r - 1, callStack := l }, .cont) := by
  unfold execRET
  rw [if_neg (by simp [hcs])]
  rw [hcs, List.getLast?_concat, List.dropLast_concat]
  rfl

theorem execRET_empty (m : Machine) (hcs : m.callStack = []) :
    execRET m = ({ m with running := false },
      .stopHalt "Return with empty call stack") := by
  unfold execRET
  rw [if_pos (by simp [hcs])]

theorem executeInstruction_at_STORE (m : Machine) :
    executeInstruction m (-2) = execSTORE m := by
  norm_num [executeInstruction]

theorem executeInstruction_at_STOREI (m : Machine) :
    executeInstruction m (-10) = execSTOREI m := by
  norm_num [executeInstruction]

theorem executeInstruction_at_CALL (m : Machine) :
    executeInstruction m 7 = execCALL m := by
  norm_num [executeInstruction]

theorem executeInstruction_at_RET (m : Machine) :
    executeInstruction m (-7) = execRET m := by
  norm_num [executeInstruction]

/-- Under no instruction-limit hit, `step` is `stepCore` of a machine that
agrees with the input on every field except possibly the history. -/
theorem step_to_stepCore (m : Machine)
    (hc : m.instructionCount < m.maxInstructions) :
    ∃ m1 : Machine,
      m1.accumulator = m.accumulator ∧
      m1.programCounter = m.programCounter ∧
      m1.instructionRegister = m.instructionRegister ∧
      m1.memory = m.memory ∧
      m1.callStack = m.callStack ∧
      m1.instructionCount = m.instructionCount ∧
      m1.maxInstructions = m.maxInstructions ∧
      m1.breakpoints = m.breakpoints ∧
      m1.protectedMemory = m.protectedMemory ∧
      m1.maxCallDepth = m.maxCallDepth ∧
      m1.conditionalBreakpoints = m.conditionalBreakpoints ∧
      step m = stepCore m1 := by
  unfold step
  rw [if_neg (by omega)]
  cases hE : m.historyEnabled
  · refine ⟨m, rfl, rfl, rfl, rfl, rfl, rfl, rfl, rfl, rfl, rfl, rfl, ?_⟩
    simp [hE]
  · refine ⟨saveStateToHistory m, by simp, by simp, by simp, by simp, by simp, by simp,
      by simp, by simp, by simp, by simp, by simp, ?_⟩
    simp [hE]

/-- The fetch-execute path of `stepCore` when the executed instruction
continues: the program counter and instruction counter are incremented on
top of the executed state, whatever the conditional-breakpoint and
end-of-memory checks then decide. -/
theorem stepCore_exec_cont (m1 M : Machine)
    (hnb : m1.breakpoints.contains m1.programCounter = false)
    (hpc0 : 0 ≤ m1.programCounter)
    (hpcl : m1.programCounter < (m1.memory.length : Int))
    (hexec : executeInstruction
        { m1 with instructionRegister := memGet m1.memory m1.programCounter }
        (memGet m1.memory m1.programCounter) = (M, .cont)) :
    (stepCore m1).1.programCounter = M.programCounter + 1 ∧
    (stepCore m1).1.callStack = M.callStack ∧
    (stepCore m1).1.accumulator = M.accumulator ∧
    (stepCore m1).1.memory = M.memory ∧
    (stepCore m1).1.instructionCount = M.instructionCount + 1 := by
  unfold stepCore
  rw [if_neg (by simpa using hnb), if_neg (by omega)]
  dsimp only
  rw [hexec]
  dsimp only
  repeat' split
  all_goals exact ⟨rfl, rfl, rfl, rfl, rfl⟩

/-- The fetch-execute path of `stepCore` when the executed instruction
raises: the thrown message escapes and the machine is left exactly as the
instruction left it. -/
theorem stepCore_exec_thrown (m1 M : Machine) (msg : String)
    (hnb : m1.breakpoints.contains m1.programCounter = false)
    (hpc0 : 0 ≤ m1.programCounter)
    (hpcl : m1.programCounter < (m1.memory.length : Int))
    (hexec : executeInstruction
        { m1 with instructionRegister := memGet m1.memory m1.programCounter }
        (memGet m1.memory m1.programCounter) = (M, .thrown msg)) :
    stepCore m1 = (M, .thrown msg) := by
  unfold stepCore
  rw [if_neg (by simpa using hnb), if_neg (by omega)]
  dsimp only
  rw [hexec]

/-- The fetch-execute path of `stepCore` when the executed instruction
stops with an `onHalt` callback. -/
theorem stepCore_exec_stopHalt (m1 M : Machine) (msg : String)
    (hnb : m1.breakpoints.contains m1.programCounter = false)
    (hpc0 : 0 ≤ m1.programCounter)
    (hpcl : m1.programCounter < (m1.memory.length : Int))
    (hexec : executeInstruction
        { m1 with instructionRegister := memGet m1.memory m1.programCounter }
        (memGet m1.memory m1.programCounter) = (M, .stopHalt msg)) :
    stepCore m1 = (M, .halted msg) := by
  unfold stepCore
  rw [if_neg (by simpa using hnb), if_neg (by omega)]
  dsimp only
  rw [hexec]

/-- A step taken at an address breakpoint: the run halts with the
breakpoint message and no field of the machine state changes other than
the history snapshot and the run flags. -/
theorem step_at_breakpoint (m : Machine)
    (hb : m.breakpoints.contains m.programCounter = true)
    (hc : m.instructionCount < m.maxInstructions) :
    (step m).2 = .halted ("Breakpoint hit at address " ++ toString m.programCounter) ∧
    (step m).1.accumulator = m.accumulator ∧
    (step m).1.programCounter = m.programCounter ∧
    (step m).1.instructionRegister = m.instructionRegister ∧
    (step m).1.memory = m.memory ∧
    (step m).1.callStack = m.callStack ∧
    (step m).1.instructionCount = m.instructionCount ∧
    (step m).1.breakpoints = m.breakpoints ∧
    (step m).1.maxInstructions = m.maxInstructions ∧
    (step m).1.running = false ∧
    (step m).1.hitBreakpoint = true := by
  obtain ⟨m1, ha, hpc, hir, hmem, hcs, hic, hmi, hbk, hpm, hmd, hcb, hstep⟩ :=
    step_to_stepCore m hc
  have hb1 : m1.breakpoints.contains m1.programCounter = true := by
    rw [hbk, hpc]; exact hb
  have hcore : stepCore m1 = ({ m1 with running := false, hitBreakpoint := true },
      .halted ("Breakpoint hit at address " ++ toString m1.programCounter)) := by
    unfold stepCore
    rw [if_pos hb1]
  rw [hstep, hcore, hpc]
  exact ⟨rfl, ha, rfl, hir, hmem, hcs, hic, hbk, hmi, rfl, rfl⟩

/-! ## Claims -/

/-- C2, counterexample to the claim as stated: a reachable post-load state
(history recording toggled off before loading) where one `step` executes
INC and one `stepBack` restores nothing, so the accumulator stays 1
instead of returning to its pre-run value 0. -/
theorem C2_counterexample :
    (stepBackN 1 (stepN 1 c2Machine)).accumulator = 1 ∧
    c2Machine.accumulator = 0 ∧
    c2Machine.executionHistory = [] := by decide

/-- C2, amended: when history recording is enabled, the history is empty
at the start (as after any `loadProgram`), at most `maxHistorySize` steps
are taken and the instruction limit is not reached, `k` `step()` calls
followed by `k` `stepBack()` calls restore the accumulator, program
counter, instruction register, memory, call stack and instruction count
to their exact pre-run values. -/
theorem C2_step_back_inverse (m : Machine) (k : Nat)
    (hhist : m.executionHistory = [])
    (hE : m.historyEnabled = true)
    (hc : m.instructionCount + k ≤ m.maxInstructions)
    (hk : k ≤ m.maxHistorySize) :
    (stepBackN k (stepN k m)).accumulator = m.accumulator ∧
    (stepBackN k (stepN k m)).programCounter = m.programCounter ∧
    (stepBackN k (stepN k m)).instructionRegister = m.instructionRegister ∧
    (stepBackN k (stepN k m)).memory = m.memory ∧
    (stepBackN k (stepN k m)).callStack = m.callStack ∧
    (stepBackN k (stepN k m)).instructionCount = m.instructionCount := by
  cases k with
  | zero => exact ⟨rfl, rfl, rfl, rfl, rfl, rfl⟩
  | succ k =>
    have hG := stepN_executionHistory (k + 1) m hE hc
      (by rw [hhist]; simpa using hk)
    rw [hhist] at hG
    have hT : snapTrace (k + 1) m = mkSnapshot m :: snapTrace k (step m).1 := rfl
    rw [hT] at hG
    have hlen : (snapTrace k (step m).1).length = k := snapTrace_length k _
    have hH := stepBackN_restore (snapTrace k (step m).1) (stepN (k + 1) m) []
      (mkSnapshot m) (by simpa using hG)
    rw [hlen] at hH
    exact hH

/-- C2, witness: the amended theorem applied to a freshly loaded
one-instruction machine, two steps and two step-backs. -/
theorem C2_witness :
    c2wMachine.executionHistory = [] ∧
    c2wMachine.historyEnabled = true ∧
    c2wMachine.instructionCount + 2 ≤ c2wMachine.maxInstructions ∧
    2 ≤ c2wMachine.maxHistorySize ∧
    ((stepBackN 2 (stepN 2 c2wMachine)).accumulator = c2wMachine.accumulator ∧
     (stepBackN 2 (stepN 2 c2wMachine)).programCounter = c2wMachine.programCounter ∧
     (stepBackN 2 (stepN 2 c2wMachine)).instructionRegister
        = c2wMachine.instructionRegister ∧
     (stepBackN 2 (stepN 2 c2wMachine)).memory = c2wMachine.memory ∧
     (stepBackN 2 (stepN 2 c2wMachine)).callStack = c2wMachine.callStack ∧
     (stepBackN 2 (stepN 2 c2wMachine)).instructionCount
        = c2wMachine.instructionCount) :=
  ⟨by decide, by decide, by decide, by decide,
    C2_step_back_inverse c2wMachine 2 (by decide) (by decide) (by decide) (by decide)⟩

/-- C3, counterexample to the claim as stated: with a breakpoint at
address 0 holding an INC, the first `step` halts at the breakpoint, but
the next `step` (the claimed "continue") halts at the same breakpoint
again instead of executing the INC exactly once — the accumulator is
still 0 where the claim demands 1. -/
theorem C3_counterexample :
    (step (step c3Machine).1).2 = .halted "Breakpoint hit at address 0" ∧
    (step (step c3Machine).1).1.accumulator = 0 ∧
    memGet c3Machine.memory c3Machine.programCounter = 9 := by decide

/-- C3, amended: a `step` at an address breakpoint halts with the
instruction not yet executed (accumulator, program counter, instruction
register, memory, call stack and instruction count unchanged), and a
further `step` while the breakpoint is still set halts at the same
address again, still without executing the instruction — it is not
executed exactly once by a bare continue. -/
theorem C3_breakpoint_no_continue (m : Machine)
    (hb : m.breakpoints.contains m.programCounter = true)
    (hc : m.instructionCount < m.maxInstructions) :
    (step m).2 = .halted ("Breakpoint hit at address " ++ toString m.programCounter) ∧
    (step m).1.accumulator = m.accumulator ∧
    (step m).1.programCounter = m.programCounter ∧
    (step m).1.instructionRegister = m.instructionRegister ∧
    (step m).1.memory = m.memory ∧
    (step m).1.callStack = m.callStack ∧
    (step m).1.instructionCount = m.instructionCount ∧
    (step (step m).1).2
      = .halted ("Breakpoint hit at address " ++ toString m.programCounter) ∧
    (step (step m).1).1.accumulator = m.accumulator ∧
    (step (step m).1).1.memory = m.memory ∧
    (step (step m).1).1.instructionCount = m.instructionCount := by
  obtain ⟨ho, ha, hp, hi, hm, hcs, hic, hbk, hmi, hrun, hhit⟩ :=
    step_at_breakpoint m hb hc
  have hb2 : (step m).1.breakpoints.contains (step m).1.programCounter = true := by
    rw [hbk, hp]; exact hb
  have hc2 : (step m).1.instructionCount < (step m).1.maxInstructions := by
    rw [hic, hmi]; exact hc
  obtain ⟨ho2, ha2, hp2, hi2, hm2, hcs2, hic2, _, _, _, _⟩ :=
    step_at_breakpoint (step m).1 hb2 hc2
  rw [hp] at ho2
  exact ⟨ho, ha, hp, hi, hm, hcs, hic, ho2, ha2.trans ha, hm2.trans hm, hic2.trans hic⟩

/-- C3, witness: the amended theorem at the concrete breakpointed
machine. -/
theorem C3_witness :
    c3Machine.breakpoints.contains c3Machine.programCounter = true ∧
    c3Machine.instructionCount < c3Machine.maxInstructions ∧
    ((step c3Machine).2
        = .halted ("Breakpoint hit at address " ++ toString c3Machine.programCounter) ∧
     (step c3Machine).1.accumulator = c3Machine.accumulator ∧
     (step c3Machine).1.programCounter = c3Machine.programCounter ∧
     (step c3Machine).1.instructionRegister = c3Machine.instructionRegister ∧
     (step c3Machine).1.memory = c3Machine.memory ∧
     (step c3Machine).1.callStack = c3Machine.callStack ∧
     (step c3Machine).1.instructionCount = c3Machine.instructionCount ∧
     (step (step c3Machine).1).2
        = .halted ("Breakpoint hit at address " ++ toString c3Machine.programCounter) ∧
     (step (step c3Machine).1).1.accumulator = c3Machine.accumulator ∧
     (step (step c3Machine).1).1.memory = c3Machine.memory ∧
     (step (step c3Machine).1).1.instructionCount = c3Machine.instructionCount) :=
  ⟨by decide, by decide,
    C3_breakpoint_no_continue c3Machine (by decide) (by decide)⟩

/-- C4, counterexample to the claim as stated: a breakpoint-halted step
does record a history snapshot (the push happens before the
address-breakpoint check), so the history grows from empty to one
entry. -/
theorem C4_counterexample :
    (step c4Machine).1.executionHistory = [mkSnapshot c4Machine] ∧
    c4Machine.executionHistory = [] ∧
    (step c4Machine).2 = .halted "Breakpoint hit at address 0" := by decide

/-- C4, amended: the snapshot push happens before the address-breakpoint
check, so a breakpoint-halted step (history enabled, below the
instruction limit) pushes exactly one snapshot of the pre-step state onto
the bounded history. -/
theorem C4_breakpoint_history (m : Machine)
    (hb : m.breakpoints.contains m.programCounter = true)
    (hc : m.instructionCount < m.maxInstructions)
    (hE : m.historyEnabled = true) :
    (step m).1.executionHistory
      = pushHist m.executionHistory (mkSnapshot m) m.maxHistorySize ∧
    (step m).2 = .halted ("Breakpoint hit at address " ++ toString m.programCounter) :=
  ⟨step_executionHistory m hc hE, (step_at_breakpoint m hb hc).1⟩

/-- C4, witness: the amended theorem at the concrete breakpointed
machine. -/
theorem C4_witness :
    c4Machine.breakpoints.contains c4Machine.programCounter = true ∧
    c4Machine.instructionCount < c4Machine.maxInstructions ∧
    c4Machine.historyEnabled = true ∧
    ((step c4Machine).1.executionHistory
        = pushHist c4Machine.executionHistory (mkSnapshot c4Machine)
            c4Machine.maxHistorySize ∧
     (step c4Machine).2
        = .halted ("Breakpoint hit at address " ++ toString c4Machine.programCounter)) :=
  ⟨by decide, by decide, by decide,
    C4_breakpoint_history c4Machine (by decide) (by decide) (by decide)⟩

/-- C1: for every integer `n` (hence in particular every integer of the
VM's supported range), `fromBalancedTernary (toBalancedTernary n)`
recovers `n` exactly, and `toBalancedTernary 0` is the single digit
"0". -/
theorem C1_round_trip :
    (∀ n : Int, fromBalancedTernary (toBalancedTernary n) = .ok n) ∧
    toBalancedTernary 0 = "0" := by
  constructor
  · intro n
    by_cases h0 : n = 0
    · subst h0; decide
    · have hmem := toBTDigits_mem n.natAbs
      have hval := toBTDigits_value n.natAbs
      rw [fromBT_eq_spec]
      simp only [toBalancedTernary, if_neg h0]
      by_cases hneg : n < 0
      · rw [if_pos hneg]
        have hmem' : ∀ d ∈ (toBTDigits n.natAbs).map (fun d => -d),
            d = -1 ∨ d = 0 ∨ d = 1 := by
          intro d hd
          obtain ⟨x, hx, rfl⟩ := List.mem_map.mp hd
          rcases hmem x hx with h | h | h <;> rw [h] <;> norm_num
        rw [fromBTSpec_mk_digits _ hmem', valueMSB_map_neg, hval]
        congr 1
        omega
      · rw [if_neg hneg]
        rw [fromBTSpec_mk_digits _ hmem, hval]
        congr 1
        omega
  · rfl

/-- C7, counterexample to the claim as stated: the underscore is not one
of the documented digit symbols, yet `fromBalancedTernary "_"` does not
fail with a parse error — it parses the underscore as the digit -1. -/
theorem C7_counterexample : fromBalancedTernary "_" = .ok (-1) := by decide

/-- C7, amended: the accepted digit symbols are '-', the Unicode minus
sign and '_' for -1, '0' for 0, and '+' or '1' for +1.  For every string
over exactly those symbols `fromBalancedTernary` returns the sum of
`digit * 3 ^ power` with the least-significant digit last, and for every
string containing any other character it fails with a parse error
reporting the offending (rightmost such) character — the behaviour packed
into `fromBTSpec`. -/
theorem C7_parse_spec (s : String) : fromBalancedTernary s = fromBTSpec s :=
  fromBT_eq_spec s

/-- C5: a STORE or STOREI whose in-range effective target address is
write-protected raises the protection error (the thrown message names the
address), never changes any memory word, and leaves accumulator, call
stack and instruction count untouched; the only state change is the
program counter sitting one past the instruction (on the consumed operand
word) and the instruction register holding the fetched opcode. -/
theorem C5_protected_store (m : Machine) (a : Int)
    (hc : m.instructionCount < m.maxInstructions)
    (hnb : m.breakpoints.contains m.programCounter = false)
    (hpc0 : 0 ≤ m.programCounter)
    (hpcl : m.programCounter < (m.memory.length : Int))
    (htgt : storeEffectiveTarget m = some a)
    (hprot : m.protectedMemory.contains a = true) :
    (step m).2 = .thrown ("Cannot write to protected memory address " ++ toString a) ∧
    (step m).1.memory = m.memory ∧
    (step m).1.accumulator = m.accumulator ∧
    (step m).1.callStack = m.callStack ∧
    (step m).1.instructionCount = m.instructionCount ∧
    (step m).1.programCounter = m.programCounter + 1 ∧
    (step m).1.instructionRegister = memGet m.memory m.programCounter := by
  obtain ⟨m1, ha, hpc, hir, hmem, hstack, hic, hmi, hbk, hpm, hmd, hcb, hstep⟩ :=
    step_to_stepCore m hc
  have hnb1 : m1.breakpoints.contains m1.programCounter = false := by
    rw [hbk, hpc]; exact hnb
  have hpc01 : 0 ≤ m1.programCounter := by rw [hpc]; exact hpc0
  have hpcl1 : m1.programCounter < (m1.memory.length : Int) := by
    rw [hpc, hmem]; exact hpcl
  unfold storeEffectiveTarget at htgt
  by_cases hSTORE : memGet m.memory m.programCounter = -2
  · rw [if_pos hSTORE] at htgt
    by_cases hw1 : m.programCounter + 1 < (m.memory.length : Int)
    swap
    · rw [if_neg hw1] at htgt; exact absurd htgt (by simp)
    rw [if_pos hw1] at htgt
    by_cases hw2 : 0 ≤ memGet m.memory (m.programCounter + 1) ∧
        memGet m.memory (m.programCounter + 1) < (m.memory.length : Int)
    swap
    · rw [if_neg hw2] at htgt; exact absurd htgt (by simp)
    rw [if_pos hw2] at htgt
    have haddr : memGet m.memory (m.programCounter + 1) = a := by
      exact Option.some.inj htgt
    have hX : memGet m1.memory m1.programCounter = -2 := by rw [hmem, hpc]; exact hSTORE
    have hw1m : m1.programCounter + 1 < (m1.memory.length : Int) := by
      rw [hpc, hmem]; exact hw1
    have hw2m : 0 ≤ memGet m1.memory (m1.programCounter + 1) ∧
        memGet m1.memory (m1.programCounter + 1) < (m1.memory.length : Int) := by
      rw [hpc, hmem]; exact hw2
    have hprotm : m1.protectedMemory.contains (memGet m1.memory (m1.programCounter + 1))
        = true := by
      rw [hpm, hmem, hpc, haddr]; exact hprot
    have hcore := stepCore_exec_thrown m1 _ _ hnb1 hpc01 hpcl1
      (by rw [hX, executeInstruction_at_STORE]
          exact execSTORE_protected _ hw1m hw2m hprotm)
    refine ⟨?_, ?_, ?_, ?_, ?_, ?_, ?_⟩ <;>
      (rw [hstep, hcore]; dsimp only) <;>
      first
        | rfl
        | simp [hmem, hpc, haddr, ha, hstack, hic, hSTORE]
  · rw [if_neg hSTORE] at htgt
    by_cases hSTOREI : memGet m.memory m.programCounter = -10
    swap
    · rw [if_neg hSTOREI] at htgt; exact absurd htgt (by simp)
    rw [if_pos hSTOREI] at htgt
    by_cases hw1 : m.programCounter + 1 < (m.memory.length : Int)
    swap
    · rw [if_neg hw1] at htgt; exact absurd htgt (by simp)
    rw [if_pos hw1] at htgt
    by_cases hw2 : 0 ≤ memGet m.memory (m.programCounter + 1) ∧
        memGet m.memory (m.programCounter + 1) < (m.memory.length : Int)
    swap
    · rw [if_neg hw2] at htgt; exact absurd htgt (by simp)
    rw [if_pos hw2] at htgt
    by_cases hw3 : 0 ≤ memGet m.memory (memGet m.memory (m.programCounter + 1)) ∧
        memGet m.memory (memGet m.memory (m.programCounter + 1)) < (m.memory.length : Int)
    swap
    · rw [if_neg hw3] at htgt; exact absurd htgt (by simp)
    rw [if_pos hw3] at htgt
    have haddr : memGet m.memory (memGet m.memory (m.programCounter + 1)) = a := by
      exact Option.some.inj htgt
    have hX : memGet m1.memory m1.programCounter = -10 := by rw [hmem, hpc]; exact hSTOREI
    have hw1m : m1.programCounter + 1 < (m1.memory.length : Int) := by
      rw [hpc, hmem]; exact hw1
    have hw2m : 0 ≤ memGet m1.memory (m1.programCounter + 1) ∧
        memGet m1.memory (m1.programCounter + 1) < (m1.memory.length : Int) := by
      rw [hpc, hmem]; exact hw2
    have hw3m : 0 ≤ memGet m1.memory (memGet m1.memory (m1.programCounter + 1)) ∧
        memGet m1.memory (memGet m1.memory (m1.programCounter + 1))
          < (m1.memory.length : Int) := by
      rw [hpc, hmem]; exact hw3
    have hprotm : m1.protectedMemory.contains
        (memGet m1.memory (memGet m1.memory (m1.programCounter + 1))) = true := by
      rw [hpm, hmem, hpc, haddr]; exact hprot
    have hcore := stepCore_exec_thrown m1 _ _ hnb1 hpc01 hpcl1
      (by rw [hX, executeInstruction_at_STOREI]
          exact execSTOREI_protected _ hw1m hw2m hw3m hprotm)
    refine ⟨?_, ?_, ?_, ?_, ?_, ?_, ?_⟩ <;>
      (rw [hstep, hcore]; dsimp only) <;>
      first
        | rfl
        | simp [hmem, hpc, haddr, ha, hstack, hic, hSTOREI]

/-- C5, witness: the theorem at the concrete STORE machine with its
target protected. -/
theorem C5_witness :
    c5Machine.instructionCount < c5Machine.maxInstructions ∧
    c5Machine.breakpoints.contains c5Machine.programCounter = false ∧
    0 ≤ c5Machine.programCounter ∧
    c5Machine.programCounter < (c5Machine.memory.length : Int) ∧
    storeEffectiveTarget c5Machine = some 2 ∧
    c5Machine.protectedMemory.contains 2 = true ∧
    ((step c5Machine).2
        = .thrown ("Cannot write to protected memory address " ++ toString (2 : Int)) ∧
     (step c5Machine).1.memory = c5Machine.memory ∧
     (step c5Machine).1.accumulator = c5Machine.accumulator ∧
     (step c5Machine).1.callStack = c5Machine.callStack ∧
     (step c5Machine).1.instructionCount = c5Machine.instructionCount ∧
     (step c5Machine).1.programCounter = c5Machine.programCounter + 1 ∧
     (step c5Machine).1.instructionRegister
        = memGet c5Machine.memory c5Machine.programCounter) :=
  ⟨by decide, by decide, by decide, by decide, by decide, by decide,
    C5_protected_store c5Machine 2 (by decide) (by decide) (by decide) (by decide)
      (by decide) (by decide)⟩

/-- Machine used to show the RET-on-empty-stack outcome concretely. -/
theorem C6_counterexample :
    (step c6Machine).2 = .halted "Return with empty call stack" ∧
    c6Machine.callStack = [] ∧
    memGet c6Machine.memory c6Machine.programCounter = -7 := by decide

/-- C6, amended: a RET (-7) executed with an empty call stack terminates
the run, but it fires the `onHalt` callback ("Return with empty call
stack"), not `onError`; exactly one callback fires for the terminating
step (the outcome is the single `halted` signal). -/
theorem C6_ret_empty_halts (m : Machine)
    (hc : m.instructionCount < m.maxInstructions)
    (hnb : m.breakpoints.contains m.programCounter = false)
    (hpc0 : 0 ≤ m.programCounter)
    (hpcl : m.programCounter < (m.memory.length : Int))
    (hop : memGet m.memory m.programCounter = -7)
    (hcs : m.callStack = []) :
    (step m).2 = .halted "Return with empty call stack" ∧
    (step m).1.running = false := by
  obtain ⟨m1, ha, hpc, hir, hmem, hstack, hic, hmi, hbk, hpm, hmd, hcb, hstep⟩ :=
    step_to_stepCore m hc
  have hnb1 : m1.breakpoints.contains m1.programCounter = false := by
    rw [hbk, hpc]; exact hnb
  have hpc01 : 0 ≤ m1.programCounter := by rw [hpc]; exact hpc0
  have hpcl1 : m1.programCounter < (m1.memory.length : Int) := by
    rw [hpc, hmem]; exact hpcl
  have hX : memGet m1.memory m1.programCounter = -7 := by rw [hmem, hpc]; exact hop
  have hcore := stepCore_exec_stopHalt m1 _ _ hnb1 hpc01 hpcl1
    (by rw [hX, executeInstruction_at_RET]
        exact execRET_empty _ (hstack.trans hcs))
  rw [hstep, hcore]
  exact ⟨rfl, rfl⟩

/-- C6, witness: the amended theorem at the concrete RET machine. -/
theorem C6_witness :
    c6Machine.instructionCount < c6Machine.maxInstructions ∧
    c6Machine.breakpoints.contains c6Machine.programCounter = false ∧
    0 ≤ c6Machine.programCounter ∧
    c6Machine.programCounter < (c6Machine.memory.length : Int) ∧
    memGet c6Machine.memory c6Machine.programCounter = -7 ∧
    c6Machine.callStack = [] ∧
    ((step c6Machine).2 = .halted "Return with empty call stack" ∧
     (step c6Machine).1.running = false) :=
  ⟨by decide, by decide, by decide, by decide, by decide, by decide,
    C6_ret_empty_halts c6Machine (by decide) (by decide) (by decide) (by decide)
      (by decide) (by decide)⟩

/-- C8: an executed CALL with in-range operand word and in-range target
pushes the address of the instruction after its operand word
(`pc + 2`) and lands on the target; a later RET executed with that frame
on top of the (arbitrarily deeper) call stack resumes exactly at `pc + 2`
and pops the frame — call/return symmetry at any nesting depth below the
maximum. -/
theorem C8_call_ret (s1 s2 : Machine) (l2 : List Int)
    (hc1 : s1.instructionCount < s1.maxInstructions)
    (hnb1 : s1.breakpoints.contains s1.programCounter = false)
    (hpc01 : 0 ≤ s1.programCounter)
    (hpcl1 : s1.programCounter < (s1.memory.length : Int))
    (hop1 : memGet s1.memory s1.programCounter = 7)
    (hdepth : s1.callStack.length < s1.maxCallDepth)
    (hw1 : s1.programCounter + 1 < (s1.memory.length : Int))
    (htgt : 0 ≤ memGet s1.memory (s1.programCounter + 1) ∧
            memGet s1.memory (s1.programCounter + 1) < (s1.memory.length : Int))
    (hc2 : s2.instructionCount < s2.maxInstructions)
    (hnb2 : s2.breakpoints.contains s2.programCounter = false)
    (hpc02 : 0 ≤ s2.programCounter)
    (hpcl2 : s2.programCounter < (s2.memory.length : Int))
    (hop2 : memGet s2.memory s2.programCounter = -7)
    (hcs2 : s2.callStack = l2 ++ [s1.programCounter + 2]) :
    (step s1).1.callStack = s1.callStack ++ [s1.programCounter + 2] ∧
    (step s1).1.programCounter = memGet s1.memory (s1.programCounter + 1) ∧
    (step s2).1.programCounter = s1.programCounter + 2 ∧
    (step s2).1.callStack = l2 := by
  obtain ⟨m1, ha, hpc, hir, hmem, hstack, hic, hmi, hbk, hpm, hmd, hcb, hstep⟩ :=
    step_to_stepCore s1 hc1
  have hnb1m : m1.breakpoints.contains m1.programCounter = false := by
    rw [hbk, hpc]; exact hnb1
  have hpc01m : 0 ≤ m1.programCounter := by rw [hpc]; exact hpc01
  have hpcl1m : m1.programCounter < (m1.memory.length : Int) := by
    rw [hpc, hmem]; exact hpcl1
  have hX : memGet m1.memory m1.programCounter = 7 := by rw [hmem, hpc]; exact hop1
  have hdepthm : m1.callStack.length < m1.maxCallDepth := by
    rw [hstack, hmd]; exact hdepth
  have hw1m : m1.programCounter + 1 < (m1.memory.length : Int) := by
    rw [hpc, hmem]; exact hw1
  have htgtm : 0 ≤ memGet m1.memory (m1.programCounter + 1) ∧
      memGet m1.memory (m1.programCounter + 1) < (m1.memory.length : Int) := by
    rw [hpc, hmem]; exact htgt
  have hcore := stepCore_exec_cont m1 _ hnb1m hpc01m hpcl1m
    (by rw [hX, executeInstruction_at_CALL]
        exact execCALL_inrange _ hdepthm hw1m htgtm)
  obtain ⟨m2, ha2, hpc2, hir2, hmem2, hstack2, hic2, hmi2, hbk2, hpm2, hmd2, hcb2,
    hstep2⟩ := step_to_stepCore s2 hc2
  have hnb2m : m2.breakpoints.contains m2.programCounter = false := by
    rw [hbk2, hpc2]; exact hnb2
  have hpc02m : 0 ≤ m2.programCounter := by rw [hpc2]; exact hpc02
  have hpcl2m : m2.programCounter < (m2.memory.length : Int) := by
    rw [hpc2, hmem2]; exact hpcl2
  have hX2 : memGet m2.memory m2.programCounter = -7 := by rw [hmem2, hpc2]; exact hop2
  have hcs2m : m2.callStack = l2 ++ [s1.programCounter + 2] := by
    rw [hstack2]; exact hcs2
  have hcore2 := stepCore_exec_cont m2 _ hnb2m hpc02m hpcl2m
    (by rw [hX2, executeInstruction_at_RET]
        exact execRET_pop _ l2 (s1.programCounter + 2) hcs2m)
  refine ⟨?_, ?_, ?_, ?_⟩
  · rw [hstep, hcore.2.1]; dsimp only; rw [hstack, hpc]
  · rw [hstep, hcore.1]; dsimp only; rw [hmem, hpc]; ring
  · rw [hstep2, hcore2.1]; dsimp only; ring
  · rw [hstep2, hcore2.2.1]

/-- C8, witness: the theorem at the concrete CALL/RET machine: the call
at 0 pushes 2 and jumps to 3, the RET there resumes at 2. -/
theorem C8_witness :
    c8Machine.instructionCount < c8Machine.maxInstructions ∧
    c8Machine.breakpoints.contains c8Machine.programCounter = false ∧
    0 ≤ c8Machine.programCounter ∧
    c8Machine.programCounter < (c8Machine.memory.length : Int) ∧
    memGet c8Machine.memory c8Machine.programCounter = 7 ∧
    c8Machine.callStack.length < c8Machine.maxCallDepth ∧
    c8Machine.programCounter + 1 < (c8Machine.memory.length : Int) ∧
    (0 ≤ memGet c8Machine.memory (c8Machine.programCounter + 1) ∧
     memGet c8Machine.memory (c8Machine.programCounter + 1)
       < (c8Machine.memory.length : Int)) ∧
    (step c8Machine).1.instructionCount < (step c8Machine).1.maxInstructions ∧
    (step c8Machine).1.breakpoints.contains (step c8Machine).1.programCounter = false ∧
    0 ≤ (step c8Machine).1.programCounter ∧
    (step c8Machine).1.programCounter < ((step c8Machine).1.memory.length : Int) ∧
    memGet (step c8Machine).1.memory (step c8Machine).1.programCounter = -7 ∧
    (step c8Machine).1.callStack = [] ++ [c8Machine.programCounter + 2] ∧
    ((step c8Machine).1.callStack = c8Machine.callStack ++ [c8Machine.programCounter + 2] ∧
     (step c8Machine).1.programCounter
        = memGet c8Machine.memory (c8Machine.programCounter + 1) ∧
     (step (step c8Machine).1).1.programCounter = c8Machine.programCounter + 2 ∧
     (step (step c8Machine).1).1.callStack = []) :=
  ⟨by decide, by decide, by decide, by decide, by decide, by decide, by decide,
    by decide, by decide, by decide, by decide, by decide, by decide, by decide,
    C8_call_ret c8Machine (step c8Machine).1 [] (by decide) (by decide) (by decide)
      (by decide) (by decide) (by decide) (by decide) (by decide) (by decide)
      (by decide) (by decide) (by decide) (by decide) (by decide)⟩

/-- C9: `reset` reinitializes the whole execution state — accumulator,
program counter, instruction register, memory (zeroed at its length),
call stack, instruction count — and clears the execution history, while
leaving address breakpoints, conditional breakpoints and watch
expressions exactly as they were. -/
theorem C9_reset (m : Machine) :
    (reset m).accumulator = 0 ∧
    (reset m).programCounter = 0 ∧
    (reset m).instructionRegister = 0 ∧
    (reset m).memory = List.replicate m.memory.length 0 ∧
    (reset m).callStack = [] ∧
    (reset m).instructionCount = 0 ∧
    (reset m).executionHistory = [] ∧
    (reset m).breakpoints = m.breakpoints ∧
    (reset m).conditionalBreakpoints = m.conditionalBreakpoints ∧
    (reset m).watches = m.watches := by
  refine ⟨rfl, rfl, rfl, ?_, rfl, rfl, rfl, rfl, rfl, rfl⟩
  show m.memory.map (fun _ => 0) = List.replicate m.memory.length 0
  simp [List.map_const']

/-- C10: an executed CALL below the depth limit with in-range operand
word but out-of-range target still pushes the return address — the call
stack grows by one frame — while the program counter just advances past
the operand word instead of transferring control. -/
theorem C10_call_out_of_range (m : Machine)
    (hc : m.instructionCount < m.maxInstructions)
    (hnb : m.breakpoints.contains m.programCounter = false)
    (hpc0 : 0 ≤ m.programCounter)
    (hpcl : m.programCounter < (m.memory.length : Int))
    (hop : memGet m.memory m.programCounter = 7)
    (hdepth : m.callStack.length < m.maxCallDepth)
    (hw1 : m.programCounter + 1 < (m.memory.length : Int))
    (hout : ¬ (0 ≤ memGet m.memory (m.programCounter + 1) ∧
               memGet m.memory (m.programCounter + 1) < (m.memory.length : Int))) :
    (step m).1.callStack = m.callStack ++ [m.programCounter + 2] ∧
    (step m).1.programCounter = m.programCounter + 2 := by
  obtain ⟨m1, ha, hpc, hir, hmem, hstack, hic, hmi, hbk, hpm, hmd, hcb, hstep⟩ :=
    step_to_stepCore m hc
  have hnbm : m1.breakpoints.contains m1.programCounter = false := by
    rw [hbk, hpc]; exact hnb
  have hpc0m : 0 ≤ m1.programCounter := by rw [hpc]; exact hpc0
  have hpclm : m1.programCounter < (m1.memory.length : Int) := by
    rw [hpc, hmem]; exact hpcl
  have hX : memGet m1.memory m1.programCounter = 7 := by rw [hmem, hpc]; exact hop
  have hdepthm : m1.callStack.length < m1.maxCallDepth := by
    rw [hstack, hmd]; exact hdepth
  have hw1m : m1.programCounter + 1 < (m1.memory.length : Int) := by
    rw [hpc, hmem]; exact hw1
  have houtm : ¬ (0 ≤ memGet m1.memory (m1.programCounter + 1) ∧
      memGet m1.memory (m1.programCounter + 1) < (m1.memory.length : Int)) := by
    rw [hpc, hmem]; exact hout
  have hcore := stepCore_exec_cont m1 _ hnbm hpc0m hpclm
    (by rw [hX, executeInstruction_at_CALL]
        exact execCALL_outrange _ hdepthm hw1m houtm)
  refine ⟨?_, ?_⟩
  · rw [hstep, hcore.2.1]; dsimp only; rw [hstack, hpc]
  · rw [hstep, hcore.1]; dsimp only; rw [hpc]; ring

/-- C10, witness: the theorem at the concrete CALL machine with target 9
out of the 3-word memory. -/
theorem C10_witness :
    c10Machine.instructionCount < c10Machine.maxInstructions ∧
    c10Machine.breakpoints.contains c10Machine.programCounter = false ∧
    0 ≤ c10Machine.programCounter ∧
    c10Machine.programCounter < (c10Machine.memory.length : Int) ∧
    memGet c10Machine.memory c10Machine.programCounter = 7 ∧
    c10Machine.callStack.length < c10Machine.maxCallDepth ∧
    c10Machine.programCounter + 1 < (c10Machine.memory.length : Int) ∧
    ¬ (0 ≤ memGet c10Machine.memory (c10Machine.programCounter + 1) ∧
       memGet c10Machine.memory (c10Machine.programCounter + 1)
         < (c10Machine.memory.length : Int)) ∧
    ((step c10Machine).1.callStack
        = c10Machine.callStack ++ [c10Machine.programCounter + 2] ∧
     (step c10Machine).1.programCounter = c10Machine.programCounter + 2) :=
  ⟨by decide, by decide, by decide, by decide, by decide, by decide, by decide,
    by decide,
    C10_call_out_of_range c10Machine (by decide) (by decide) (by decide) (by decide)
      (by decide) (by decide) (by decide) (by decide)⟩

end Setun
